import Mathlib

/-!
Verification of the pptx-service package-integrity engine
(`src/pptx_tools.py`, `src/pptx_validate.py`) against its specification.

Python strings are modelled as `List Char` (a Python `str` is a sequence of
Unicode code points).  File trees are modelled as structured packages whose
XML parts are represented in parsed form; each Lean definition transcribes
one Python function and is named after it.
-/

set_option maxHeartbeats 1000000
set_option maxRecDepth 100000

namespace Pptx

/-! ## Python `str.replace`

`pyReplace pat repl s` models Python `s.replace(pat, repl)` for a non-empty
pattern `pat`: scan left to right, replace each non-overlapping occurrence.
(Python treats an empty pattern specially; the program only ever calls
`replace` with non-empty patterns, and for `pat = []` this model returns `s`
unchanged.)  The scan is written with a structural fuel argument consumed
once per step; since each step shortens the remaining input by at least one
character, `s.length` fuel always suffices, and the three source-shaped
step equations are proved below (`pyReplace_nil`, `pyReplace_pos`,
`pyReplace_neg`). -/
def pyReplaceF (pat repl : List Char) : Nat → List Char → List Char
  | _, [] => []
  | 0, s => s
  | fuel + 1, a :: rest =>
    if pat ≠ [] ∧ pat.isPrefixOf (a :: rest) then
      repl ++ pyReplaceF pat repl fuel ((a :: rest).drop pat.length)
    else
      a :: pyReplaceF pat repl fuel rest

def pyReplace (pat repl s : List Char) : List Char := pyReplaceF pat repl s.length s

/-! Character-list implementations of the Python `str` operations the
program uses (`startswith`, `endswith`, `split`, `in`); these mirror the
Python semantics directly on the code-point list. -/

def strStartsWith (s pfx : String) : Bool := pfx.toList.isPrefixOf s.toList

def strEndsWith (s suf : String) : Bool := suf.toList.isSuffixOf s.toList

/-- Split at every occurrence of a separator character (Python
`s.split(sep)` for a one-character separator; also `pathlib` segment
splitting on `/`). -/
def splitOnChar (c : Char) : List Char → List (List Char)
  | [] => [[]]
  | x :: xs =>
    match splitOnChar c xs with
    | [] => [[x]]
    | h :: t => if x == c then [] :: h :: t else (x :: h) :: t

/-- The four smart-quote code points (keys of `SMART_QUOTE_REPLACEMENTS`,
in dict insertion order): U+201C, U+201D, U+2018, U+2019. -/
def smartLQ : Char := Char.ofNat 0x201C
def smartRQ : Char := Char.ofNat 0x201D
def smartLS : Char := Char.ofNat 0x2018
def smartRS : Char := Char.ofNat 0x2019

/-- Their numeric character references (values of `SMART_QUOTE_REPLACEMENTS`). -/
def entLQ : List Char := "&#x201C;".toList
def entRQ : List Char := "&#x201D;".toList
def entLS : List Char := "&#x2018;".toList
def entRS : List Char := "&#x2019;".toList

/-- `SMART_QUOTE_REPLACEMENTS` as an association list, in insertion order. -/
def smartQuotePairs : List (Char × List Char) :=
  [(smartLQ, entLQ), (smartRQ, entRQ), (smartLS, entLS), (smartRS, entRS)]

/-- `_escape_smart_quotes`: successive `content.replace(char, entity)` over
the dict, in insertion order. -/
def escape_smart_quotes (s : List Char) : List Char :=
  smartQuotePairs.foldl (fun acc ce => pyReplace [ce.1] ce.2 acc) s

/-- `_restore_smart_quotes`: successive `content.replace(entity, char)` over
the inverted dict (`SMART_QUOTE_RESTORE`), in the same order. -/
def restore_smart_quotes (s : List Char) : List Char :=
  smartQuotePairs.foldl (fun acc ce => pyReplace ce.2 [ce.1] acc) s

/-- The input contains none of the four numeric character references as a
literal substring. -/
def noEntity (s : List Char) : Prop :=
  ¬ entLQ <:+: s ∧ ¬ entRQ <:+: s ∧ ¬ entLS <:+: s ∧ ¬ entRS <:+: s

instance (s : List Char) : Decidable (noEntity s) := by
  unfold noEntity; infer_instance

/-- Simultaneous-encoding view used to relate the sequential `replace`
calls of `_escape_smart_quotes` / `_restore_smart_quotes` to a per-character
map: every character with a pair in `pairs` maps to its entity, every other
character to itself. -/
def encOf (pairs : List (Char × List Char)) (x : Char) : List Char :=
  match pairs with
  | [] => [x]
  | ce :: rest => if ce.1 = x then ce.2 else encOf rest x

/-! ## XML condensation (`_condense_xml`)

`minidom` documents are modelled as node trees.  Only the node kinds the
function inspects are represented: elements (with their qualified tag name),
text nodes, and comments.  Attributes play no role in `_condense_xml` and are
omitted.  `dom.getElementsByTagName("*")` visits every element of the tree;
for each element whose `tagName` does not end in `":t"` the function deletes
the direct children that are whitespace-only non-empty text nodes or
comments. -/
inductive XNode where
  | elem (tagName : String) (children : List XNode)
  | text (value : String)
  | comment (value : String)

/-- A direct child removed by `_condense_xml`: a text node whose `nodeValue`
is non-empty (Python truthiness) and whitespace-only (`strip() == ""`), or a
comment node. -/
def removableChild : XNode → Bool
  | .text v => v ≠ "" && v.toList.all Char.isWhitespace
  | .comment _ => true
  | .elem _ _ => false

/- Node count of a tree, used as structural fuel for `condense_xml`. -/
mutual
def nodeSize : XNode → Nat
  | .elem _ children => 1 + nodeListSize children
  | .text _ => 1
  | .comment _ => 1
def nodeListSize : List XNode → Nat
  | [] => 0
  | c :: cs => nodeSize c + nodeListSize cs
end

/-- `_condense_xml` on a node tree, fuel-indexed; recursion descends one
tree level per fuel unit, so `nodeSize n` always suffices
(`condenseF_congr` below). -/
def condenseF : Nat → XNode → XNode
  | 0, n => n
  | fuel + 1, .elem tagName children =>
    let kept := if strEndsWith tagName ":t" then children
                else children.filter (fun c => !(removableChild c))
    .elem tagName (kept.map (condenseF fuel))
  | _ + 1, .text v => .text v
  | _ + 1, .comment v => .comment v

/-- `_condense_xml` on a node tree.  Every element is visited; elements whose
qualified `tagName` ends in `":t"` keep all their direct children, every
other element drops its removable direct children.  Recursion then continues
into the remaining children (the elements `getElementsByTagName` would visit
next). -/
def condense_xml (n : XNode) : XNode := condenseF (nodeSize n) n

/-- DOM `localName`: the part of the qualified name after the first colon,
or the whole name when there is no colon. -/
def localName (tagName : String) : String :=
  let l := tagName.toList
  if l.contains ':' then String.mk ((l.dropWhile (fun c => c != ':')).drop 1)
  else tagName

/- DOM `textContent` of a node: concatenation of all descendant text
values, in document order. -/
mutual
def textContent : XNode → String
  | .elem _ children => textContentList children
  | .text v => v
  | .comment _ => ""
def textContentList : List XNode → String
  | [] => ""
  | c :: cs => textContent c ++ textContentList cs
end

def XNode.isTextNode : XNode → Bool
  | .text _ => true
  | _ => false

/- Every element of the tree whose tag name does not end in `":t"` has no
removable direct children (the shape `_condense_xml` is meant to establish). -/
mutual
def condensedShape : XNode → Bool
  | .elem tagName children =>
    (strEndsWith tagName ":t" || children.all (fun c => !(removableChild c))) &&
      condensedShapeList children
  | .text _ => true
  | .comment _ => true
def condensedShapeList : List XNode → Bool
  | [] => true
  | c :: cs => condensedShape c && condensedShapeList cs
end


/-! ## Duplicated-slide relationship stripping (`duplicate_slide`, text level)

After copying the source slide relationships file, `duplicate_slide` runs

  `re.sub(r'\s*<Relationship[^>]*Type="[^"]*notesSlide"[^>]*/>\s*', "\n", content)`

on the copied file text.  A relationships file is modelled as the list of
its serialized `Relationship` elements; `selfClosing` records whether an
element is serialized as `<Relationship ... />` (as `minidom` writes empty
elements) or as `<Relationship ...></Relationship>`.  Since `[^>]*` cannot
cross the `>` that closes a non-self-closing start tag, and neither
`</Relationship>` nor any double-quoted attribute value of a canonically
serialized element contains the two-character sequence `/>`, the pattern
matches exactly those elements serialized self-closing, with double-quoted
attributes, whose `Type` value ends with `notesSlide`.  The substitution
therefore deletes precisely those elements. -/
structure RelXml where
  id : String
  type : String
  target : String
  selfClosing : Bool
deriving DecidableEq, Repr

def notesSlideTypeURI : String :=
  "http://schemas.openxmlformats.org/officeDocument/2006/relationships/notesSlide"

/-- A relationship whose type denotes a notes-slide link. -/
def isNotesSlideType (r : RelXml) : Bool := r.type == notesSlideTypeURI

/-- Effect of the `re.sub` above on the element list of the copied
relationships file. -/
def stripNotesSlideRels (rels : List RelXml) : List RelXml :=
  rels.filter (fun r => !(r.selfClosing && strEndsWith r.type "notesSlide"))

/-! ## String helpers shared by the package model -/

/-- Python `pat in s` (substring test). -/
def strContains (s pat : String) : Bool := decide (pat.toList <:+: s.toList)

/-- Python `s.replace(pat, repl)` on `String`. -/
def strReplace (s pat repl : String) : String :=
  String.mk (pyReplace pat.toList repl.toList s.toList)

/-- Python `s.lstrip("/")`. -/
def stripLeadSlashes (s : String) : String :=
  String.mk (s.toList.dropWhile (fun c => c == '/'))

def digitVal (c : Char) : Nat := c.toNat - 48

/-- Python `int(...)` on a digit string. -/
def parseDigits (l : List Char) : Nat := l.foldl (fun a c => 10 * a + digitVal c) 0

/-- Decimal representation, as Python `str(n)` produces it. -/
def decimalReprAux : Nat → Nat → List Char
  | 0, _ => []
  | fuel + 1, n =>
    if n < 10 then [Nat.digitChar n]
    else decimalReprAux fuel (n / 10) ++ [Nat.digitChar (n % 10)]

def decimalRepr (n : Nat) : List Char := decimalReprAux (n + 1) n

def natStr (n : Nat) : String := String.mk (decimalRepr n)

/-- `re.match(r"slide(\d+)\.xml", name)`: anchored at the start, not at the
end; the greedy `\d+` takes the maximal digit run after `slide`, after which
`.xml` must follow immediately.  Returns the captured number. -/
def parseSlideNum (name : String) : Option Nat :=
  let l := name.toList
  if l.take 5 = "slide".toList then
    let rest := l.drop 5
    let ds := rest.takeWhile Char.isDigit
    if ds ≠ [] ∧ (rest.drop ds.length).take 4 = ".xml".toList then
      some (parseDigits ds)
    else none
  else none

/-- `glob("slide*.xml")` on a file name. -/
def slideGlob (name : String) : Bool :=
  strStartsWith name "slide" && strEndsWith name ".xml"

/-- One match of `re.findall(r'Id="rId(\d+)"', ...)` against the canonical
serialization `Id="..."` of one relationship id: the id must be `rId`
followed by nothing but digits (the closing quote must follow the digit
run). -/
def parseRId (id : String) : Option Nat :=
  let l := id.toList
  if l.take 3 = "rId".toList ∧ l.drop 3 ≠ [] ∧ (l.drop 3).all Char.isDigit then
    some (parseDigits (l.drop 3))
  else none

/-! ## The package model

An unpacked package directory is modelled in parsed form:

* `pres`: the `<p:sldId id=".." r:id=".."/>` entries of the `<p:sldIdLst>`
  of `ppt/presentation.xml`, in document order (`none` = file missing);
* `presRels`: the `Relationship` elements of
  `ppt/_rels/presentation.xml.rels`, in document order (`none` = missing);
* `ctypes`: the `Override` `PartName` attributes of `[Content_Types].xml`,
  in document order (`none` = missing);
* `relsFiles`: every other `*.rels` file, as path segments plus parsed
  `Relationship` elements;
* `files`: every other file, as path segments (content is irrelevant to the
  operations modelled here).

Paths are lists of segments relative to the unpacked directory.  A
directory is taken to exist when some entry lies beneath it; on the empty
directories this cannot distinguish, the modelled operations remove
nothing, like the code.  The code parses these parts with `minidom`
(raising on malformed XML); the model represents only the parsed form, so
those error paths do not arise. -/
structure Rel where
  id : String
  type : String
  target : String
deriving DecidableEq, Repr

structure SldEntry where
  sldId : Nat
  rId : String
deriving DecidableEq, Repr

structure Package where
  pres : Option (List SldEntry)
  presRels : Option (List Rel)
  ctypes : Option (List String)
  relsFiles : List (List String × List Rel)
  files : List (List String)
deriving DecidableEq, Repr

def pathStr : List String → String
  | [] => ""
  | [s] => s
  | s :: rest => s ++ "/" ++ pathStr rest

/-- `Path.resolve()` segment normalization: drop empty and `.` segments,
let `..` pop; a `..` that escapes the unpacked root makes the subsequent
`relative_to(unpacked_dir)` raise `ValueError`, modelled as `none`. -/
def normSegs (stack : List String) : List String → Option (List String)
  | [] => some stack.reverse
  | s :: rest =>
    if s = "" ∨ s = "." then normSegs stack rest
    else if s = ".." then
      match stack with
      | [] => none
      | _ :: st => normSegs st rest
    else normSegs (s :: stack) rest

/-- `(rels_file.parent.parent / target).resolve().relative_to(unpacked_dir)`:
resolve a relationship target against the directory owning the
relationships file.  An absolute target resolves outside the unpacked
directory (`none`). -/
def resolveTarget (relsPath : List String) (target : String) : Option (List String) :=
  if strStartsWith target "/" then none
  else normSegs [] (relsPath.dropLast.dropLast ++
    (splitOnChar '/' target.toList).map String.mk)

/-- `target.replace("slides/", "")`. -/
def stripSlidesDir (t : String) : String := strReplace t "slides/" ""

/-- The relationships `_get_slides_in_sldidlst` indexes:
`"slide" in rel_type and target.startswith("slides/")`. -/
def slideRelCond (r : Rel) : Bool :=
  strContains r.type "slide" && strStartsWith r.target "slides/"

/-- `rid_to_slide[rid]`: dict building is last-wins in document order. -/
def ridToSlide (rels : List Rel) (rid : String) : Option String :=
  ((rels.filter (fun r => slideRelCond r && r.id == rid)).getLast?).map
    (fun r => stripSlidesDir r.target)

/-- `_get_slides_in_sldidlst`: slide file names reachable from the
`<p:sldIdLst>` through `presentation.xml.rels`; empty when either file is
missing. -/
def get_slides_in_sldidlst (pkg : Package) : List String :=
  match pkg.pres, pkg.presRels with
  | some entries, some rels => (entries.map SldEntry.rId).filterMap (ridToSlide rels)
  | _, _ => []

def underDir (pfx : List String) (p : List String) : Bool := p.take pfx.length == pfx

def slidesDirExists (pkg : Package) : Bool :=
  pkg.files.any (underDir ["ppt", "slides"]) ||
    pkg.relsFiles.any (fun e => underDir ["ppt", "slides"] e.1)

def slideRelsPathOf (n : String) : List String := ["ppt", "slides", "_rels", n ++ ".rels"]

/-- `_remove_orphaned_slides`: delete every `ppt/slides/slide*.xml` not in
the slide-list set, with its relationships file; when anything was removed,
also drop from `presentation.xml.rels` every relationship whose target is a
`slides/` path not in that set. -/
def remove_orphaned_slides (pkg : Package) : List String × Package :=
  if ¬ slidesDirExists pkg then ([], pkg)
  else
    let rs := get_slides_in_sldidlst pkg
    let isOrphSlide : List String → Bool := fun p =>
      match p with
      | ["ppt", "slides", n] => slideGlob n && !(rs.contains n)
      | _ => false
    let orphans := pkg.files.filter isOrphSlide
    let removed := orphans.flatMap (fun p =>
      pathStr p ::
        (if pkg.relsFiles.any (fun e => e.1 == slideRelsPathOf (p.getLastD "")) then
          [pathStr (slideRelsPathOf (p.getLastD ""))]
        else []))
    let files2 := pkg.files.filter (fun p => !(isOrphSlide p))
    let rels2 := pkg.relsFiles.filter (fun e =>
      !(orphans.any (fun p => e.1 == slideRelsPathOf (p.getLastD ""))))
    let presRels2 :=
      if removed.isEmpty then pkg.presRels
      else pkg.presRels.map (fun rl => rl.filter (fun r =>
        !(strStartsWith r.target "slides/" && !(rs.contains (stripSlidesDir r.target)))))
    (removed, { pkg with files := files2, relsFiles := rels2, presRels := presRels2 })

/-- `_remove_trash_directory`: unlink the files directly inside `[trash]`
(`iterdir` + `is_file`; deeper entries are directories, which `iterdir`
skips — on those the code then fails at `rmdir`, a state this model leaves
in place instead). -/
def remove_trash_directory (pkg : Package) : List String × Package :=
  let isTrash : List String → Bool := fun p => p.length == 2 && p.head? == some "[trash]"
  ((pkg.files.filter isTrash).map pathStr ++
     (pkg.relsFiles.filter (fun e => isTrash e.1)).map (fun e => pathStr e.1),
   { pkg with
       files := pkg.files.filter (fun p => !(isTrash p)),
       relsFiles := pkg.relsFiles.filter (fun e => !(isTrash e.1)) })

/-- `_get_slide_referenced_files`: resolved targets of every
`ppt/slides/_rels/*.rels` relationship (empty targets skipped;
out-of-root resolutions skipped). -/
def get_slide_referenced_files (pkg : Package) : List (List String) :=
  (pkg.relsFiles.filter (fun e =>
      match e.1 with
      | ["ppt", "slides", "_rels", n] => strEndsWith n ".rels"
      | _ => false)).flatMap
    (fun e => e.2.filterMap (fun r =>
      if r.target == "" then none else resolveTarget e.1 r.target))

def resourceDirsRels : List String := ["charts", "diagrams", "drawings"]

/-- `_remove_orphaned_rels_files`: in `ppt/charts|diagrams|drawings/_rels`,
delete every `*.rels` whose owning resource file does not exist or is not
referenced from any slide. -/
def remove_orphaned_rels_files (pkg : Package) : List String × Package :=
  let slideRef := get_slide_referenced_files pkg
  let isOrph : List String × List Rel → Bool := fun e =>
    match e.1 with
    | ["ppt", d, "_rels", name] =>
      resourceDirsRels.contains d && strEndsWith name ".rels" &&
        (let res := ["ppt", d, strReplace name ".rels" ""]
         !(pkg.files.contains res) || !(slideRef.contains res))
    | _ => false
  ((pkg.relsFiles.filter isOrph).map (fun e => pathStr e.1),
   { pkg with relsFiles := pkg.relsFiles.filter (fun e => !(isOrph e)) })

def presRelsPath : List String := ["ppt", "_rels", "presentation.xml.rels"]

/-- `_get_referenced_files`: resolved targets of every `*.rels` file in the
package (`rglob`), including `ppt/_rels/presentation.xml.rels`. -/
def get_referenced_files (pkg : Package) : List (List String) :=
  (match pkg.presRels with
   | some rels => rels.filterMap (fun r =>
       if r.target == "" then none else resolveTarget presRelsPath r.target)
   | none => []) ++
    pkg.relsFiles.flatMap (fun e => e.2.filterMap (fun r =>
      if r.target == "" then none else resolveTarget e.1 r.target))

def resourceDirsFiles : List String :=
  ["media", "embeddings", "charts", "diagrams", "tags", "drawings", "ink"]

def themeRelsPathOf (n : String) : List String := ["ppt", "theme", "_rels", n ++ ".rels"]

/-- `_remove_orphaned_files`: delete unreferenced files directly inside the
resource directories; then unreferenced `ppt/theme/theme*.xml` together
with their relationships files; then unreferenced `ppt/notesSlides/*.xml`;
finally every `ppt/notesSlides/_rels/*.rels` whose notes file no longer
exists. -/
def remove_orphaned_files (pkg : Package) (referenced : List (List String)) :
    List String × Package :=
  let isOrphRes : List String → Bool := fun p =>
    match p with
    | ["ppt", d, _n] => resourceDirsFiles.contains d && !(referenced.contains p)
    | _ => false
  let removed1 := (pkg.files.filter isOrphRes).map pathStr
  let files1 := pkg.files.filter (fun p => !(isOrphRes p))
  let isOrphTheme : List String → Bool := fun p =>
    match p with
    | ["ppt", "theme", n] =>
      strStartsWith n "theme" && strEndsWith n ".xml" && !(referenced.contains p)
    | _ => false
  let themeOrphans := files1.filter isOrphTheme
  let removed2 := themeOrphans.flatMap (fun p =>
    pathStr p ::
      (if pkg.relsFiles.any (fun e => e.1 == themeRelsPathOf (p.getLastD "")) then
        [pathStr (themeRelsPathOf (p.getLastD ""))]
      else []))
  let files2 := files1.filter (fun p => !(isOrphTheme p))
  let rels2 := pkg.relsFiles.filter (fun e =>
    !(themeOrphans.any (fun p => e.1 == themeRelsPathOf (p.getLastD ""))))
  let isOrphNote : List String → Bool := fun p =>
    match p with
    | ["ppt", "notesSlides", n] => strEndsWith n ".xml" && !(referenced.contains p)
    | _ => false
  let removed3 := (files2.filter isOrphNote).map pathStr
  let files3 := files2.filter (fun p => !(isOrphNote p))
  let isOrphNoteRels : List String × List Rel → Bool := fun e =>
    match e.1 with
    | ["ppt", "notesSlides", "_rels", name] =>
      strEndsWith name ".rels" &&
        !(files3.contains ["ppt", "notesSlides", strReplace name ".rels" ""])
    | _ => false
  let removed4 := (rels2.filter isOrphNoteRels).map (fun e => pathStr e.1)
  let rels3 := rels2.filter (fun e => !(isOrphNoteRels e))
  (removed1 ++ removed2 ++ removed3 ++ removed4,
   { pkg with files := files3, relsFiles := rels3 })

/-- One iteration of the stabilization loop in `clean` (step 3). -/
def loopPass (pkg : Package) : List String × Package :=
  let rr := remove_orphaned_rels_files pkg
  let referenced := get_referenced_files rr.2
  let rf := remove_orphaned_files rr.2 referenced
  (rr.1 ++ rf.1, rf.2)

def pkgSize (pkg : Package) : Nat := pkg.files.length + pkg.relsFiles.length

/-- The `while True` loop of `clean`, fuel-indexed; each productive
iteration deletes at least one entry, so `pkgSize pkg + 1` fuel always
reaches the break (proved below as `cleanLoopFuel_fix`). -/
def cleanLoopFuel : Nat → Package → List String × Package
  | 0, pkg => ([], pkg)
  | fuel + 1, pkg =>
    let step := loopPass pkg
    if step.1.isEmpty then ([], step.2)
    else
      let rest := cleanLoopFuel fuel step.2
      (step.1 ++ rest.1, rest.2)

def cleanLoop (pkg : Package) : List String × Package :=
  cleanLoopFuel (pkgSize pkg + 1) pkg

/-- `_update_content_types`: drop every `Override` whose `PartName`
(leading slashes stripped) is among the removed paths. -/
def update_content_types (pkg : Package) (removedFiles : List String) : Package :=
  match pkg.ctypes with
  | none => pkg
  | some ov =>
    { pkg with
        ctypes := some (ov.filter (fun pn => !(removedFiles.contains (stripLeadSlashes pn)))) }

/-- `clean`: orphaned slides, `[trash]`, the stabilization loop, then the
manifest update (only when something was removed).  Returns the removed
paths and the resulting package. -/
def clean (pkg : Package) : List String × Package :=
  let s1 := remove_orphaned_slides pkg
  let s2 := remove_trash_directory s1.2
  let s3 := cleanLoop s2.2
  let allRemoved := s1.1 ++ s2.1 ++ s3.1
  let final := if allRemoved.isEmpty then s3.2 else update_content_types s3.2 allRemoved
  (allRemoved, final)

/-- Whether a path names an existing part of the package. -/
def partExists (pkg : Package) (p : List String) : Bool :=
  pkg.files.contains p || pkg.relsFiles.any (fun e => e.1 == p) ||
    (p == ["ppt", "presentation.xml"] && pkg.pres.isSome) ||
    (p == presRelsPath && pkg.presRels.isSome) ||
    (p == ["[Content_Types].xml"] && pkg.ctypes.isSome)

/-! ## `duplicate_slide` and `add_slide_to_presentation` -/

structure DupResult where
  new_filename : String
  new_sld_id : Nat
  new_r_id : String
deriving DecidableEq, Repr

def slideTypeURI : String :=
  "http://schemas.openxmlformats.org/officeDocument/2006/relationships/slide"

/-- `duplicate_slide`.  Failures of the unconditional `read_text` calls
(missing `[Content_Types].xml`, `presentation.xml.rels`,
`presentation.xml`) surface as errors, like the uncaught exceptions of the
code.  The substring gates (`in ct_content`, `in pres_rels`) test the
canonical serializations, where the pattern can only occur inside an
attribute value.  The notes-slide strip on the copied relationships file is
the canonical-serialization effect of the `re.sub` modelled by
`stripNotesSlideRels`. -/
def duplicate_slide (pkg : Package) (sourceFilename : String) :
    Except String (DupResult × Package) :=
  if ¬ pkg.files.contains ["ppt", "slides", sourceFilename] then
    .error "source slide not found"
  else
    let existing := pkg.files.filterMap (fun p =>
      match p with
      | ["ppt", "slides", n] => if slideGlob n then parseSlideNum n else none
      | _ => none)
    let nextNum := existing.foldr Nat.max 0 + 1
    let dest := "slide" ++ natStr nextNum ++ ".xml"
    let files2 := pkg.files ++ [["ppt", "slides", dest]]
    let srcRels := (pkg.relsFiles.filter
      (fun e => e.1 == slideRelsPathOf sourceFilename)).head?
    let rels2 :=
      match srcRels with
      | some e =>
        pkg.relsFiles ++
          [(slideRelsPathOf dest, e.2.filter (fun r => !(strEndsWith r.type "notesSlide")))]
      | none => pkg.relsFiles
    match pkg.ctypes with
    | none => .error "Content_Types not found"
    | some ov =>
      let overridePart := "/ppt/slides/" ++ dest
      let ov2 := if ov.any (fun pn => strContains pn overridePart) then ov
                 else ov ++ [overridePart]
      match pkg.presRels with
      | none => .error "presentation rels not found"
      | some prels =>
        let rids := prels.filterMap (fun r => parseRId r.id)
        let nextRid := rids.foldr Nat.max 0 + 1
        let rid := "rId" ++ natStr nextRid
        let slidesPat := "slides/" ++ dest
        let prels2 :=
          if prels.any (fun r => strContains r.id slidesPat ||
              strContains r.type slidesPat || strContains r.target slidesPat) then prels
          else prels ++ [⟨rid, slideTypeURI, slidesPat⟩]
        match pkg.pres with
        | none => .error "presentation not found"
        | some entries =>
          let slideIds := entries.map SldEntry.sldId
          let newSldId := if slideIds.isEmpty then 256 else slideIds.foldr Nat.max 0 + 1
          .ok (⟨dest, newSldId, rid⟩,
            { pkg with
                files := files2
                relsFiles := rels2
                ctypes := some ov2
                presRels := some prels2 })

/-- Projection of a `duplicate_slide` outcome onto the returned identifier
dict (used to state concrete facts about successful calls). -/
def dupResultOf (x : Except String (DupResult × Package)) : Option DupResult :=
  match x with
  | .ok (r, _) => some r
  | .error _ => none

/-- Python `list.insert(idx, e)` for `idx ≤ length` (beyond-end appends). -/
def insertAt : Nat → SldEntry → List SldEntry → List SldEntry
  | 0, e, l => e :: l
  | _ + 1, e, [] => [e]
  | n + 1, e, x :: xs => x :: insertAt n e xs

/-- The effect of `add_slide_to_presentation` on the entry list of the
`<p:sldIdLst>` block: with a position, the extracted entries are re-emitted
with the new entry inserted at `max(0, min(position - 1, len))`; without
one, the new entry is appended before the closing tag. -/
def insertEntries (entries : List SldEntry) (sldId : Nat) (rid : String)
    (position : Option Int) : List SldEntry :=
  let newEntry : SldEntry := ⟨sldId, rid⟩
  match position with
  | none => entries ++ [newEntry]
  | some pos =>
    let idx : Nat := (max 0 (min (pos - 1) (entries.length : Int))).toNat
    insertAt idx newEntry entries

/-- `add_slide_to_presentation` on the package (the `read_text` raises when
`presentation.xml` is missing, hence `Option`). -/
def add_slide_to_presentation (pkg : Package) (sldId : Nat) (rid : String)
    (position : Option Int) : Option Package :=
  pkg.pres.map (fun entries =>
    { pkg with pres := some (insertEntries entries sldId rid position) })

/-! ## Differential XSD validation (`_check_xsd`)

The actual schema validation of one file (`_validate_one_file_xsd`,
`lxml.etree.XMLSchema`) is an external-library call; it enters the model as
oracles `valC`/`valB` mapping a relative part path to `none` (schema failed
to load — skip) or its error-message set for the candidate or baseline
package.  Everything around the oracles — schema-path selection, the skip
rules, the baseline subtraction, and the benign-error filter — is
transcribed from the source. -/
def SCHEMA_MAPPINGS : List (String × String) :=
  [("ppt", "ISO-IEC29500-4_2016/pml.xsd"),
   ("[Content_Types].xml", "ecma/fouth-edition/opc-contentTypes.xsd"),
   ("app.xml", "ISO-IEC29500-4_2016/shared-documentPropertiesExtended.xsd"),
   ("core.xml", "ecma/fouth-edition/opc-coreProperties.xsd"),
   ("custom.xml", "ISO-IEC29500-4_2016/shared-documentPropertiesCustom.xsd"),
   (".rels", "ecma/fouth-edition/opc-relationships.xsd"),
   ("chart", "ISO-IEC29500-4_2016/dml-chart.xsd"),
   ("theme", "ISO-IEC29500-4_2016/dml-main.xsd"),
   ("drawing", "ISO-IEC29500-4_2016/dml-main.xsd")]

def IGNORED_XSD_ERRORS : List String :=
  ["hyphenationZone", "purl.org/dc/terms",
   "\x7bhttp://www.w3.org/XML/1998/namespace\x7dspace"]

/-- `_get_schema_path` (the schemas directory prefix is left implicit):
file-name mapping first, then the `.rels` suffix, then charts and theme
directories, then anything under `ppt/`. -/
def get_schema_path (relPath : List String) : Option String :=
  let name := (relPath.getLast?).getD ""
  match (SCHEMA_MAPPINGS.filter (fun kv => kv.1 == name)).head? with
  | some kv => some kv.2
  | none =>
    if strEndsWith name ".rels" && name != ".rels" then
      some "ecma/fouth-edition/opc-relationships.xsd"
    else if strContains (pathStr relPath) "charts/" && strStartsWith name "chart" then
      some "ISO-IEC29500-4_2016/dml-chart.xsd"
    else if strContains (pathStr relPath) "theme/" && strStartsWith name "theme" then
      some "ISO-IEC29500-4_2016/dml-main.xsd"
    else if relPath.head? == some "ppt" then
      some "ISO-IEC29500-4_2016/pml.xsd"
    else none

/-- The benign-error filter of `_check_xsd`. -/
def filterIgnored (errs : Finset String) : Finset String :=
  errs.filter (fun e => (IGNORED_XSD_ERRORS.all (fun pat => !(strContains e pat))) = true)

/-- The per-file body of the `_check_xsd` loop, reporting, for a part that
survives all the skip rules with a non-empty final error set, the part path
and the reported error count (`len(current_errors)`; the up-to-three
truncated detail lines are presentation only). -/
def check_xsd_one (valC valB : List String → Option (Finset String))
    (baseExists : List String → Bool) (hasBaseline : Bool) (f : List String) :
    Option (List String × Nat) :=
  match get_schema_path f with
  | none => none
  | some _ =>
    match valC f with
    | none => none
    | some cur =>
      if cur = ∅ then none
      else
        let cur1 := if hasBaseline && baseExists f then cur \ ((valB f).getD ∅) else cur
        let cur2 := filterIgnored cur1
        if cur2 = ∅ then none else some (f, cur2.card)

/-- `_check_xsd` over a file list (each file reports independently). -/
def check_xsd (files : List (List String))
    (valC valB : List String → Option (Finset String))
    (baseExists : List String → Bool) (hasBaseline : Bool) :
    List (List String × Nat) :=
  files.filterMap (check_xsd_one valC valB baseExists hasBaseline)

/-! # Theorems -/

/-! ## `str.replace` step equations -/

theorem pyReplaceF_congr (pat repl : List Char) :
    ∀ f₁ f₂ s, s.length ≤ f₁ → s.length ≤ f₂ →
      pyReplaceF pat repl f₁ s = pyReplaceF pat repl f₂ s := by
  intro f₁
  induction f₁ with
  | zero =>
    intro f₂ s h1 _
    have hs : s = [] := List.eq_nil_of_length_eq_zero (Nat.le_zero.mp h1)
    subst hs
    cases f₂ <;> rfl
  | succ f ih =>
    intro f₂ s h1 h2
    cases s with
    | nil => cases f₂ <;> rfl
    | cons a rest =>
      cases f₂ with
      | zero => simp at h2
      | succ g =>
        simp only [pyReplaceF]
        by_cases hc : pat ≠ [] ∧ pat.isPrefixOf (a :: rest)
        · rw [if_pos hc, if_pos hc]
          have hlp : 1 ≤ pat.length := by
            have := hc.1
            cases pat with
            | nil => simp at this
            | cons _ _ => simp
          simp only [List.length_cons] at h1 h2
          have hd1 : ((a :: rest).drop pat.length).length ≤ f := by
            simp only [List.length_drop, List.length_cons]; omega
          have hd2 : ((a :: rest).drop pat.length).length ≤ g := by
            simp only [List.length_drop, List.length_cons]; omega
          rw [ih _ _ hd1 hd2]
        · rw [if_neg hc, if_neg hc]
          simp only [List.length_cons] at h1 h2
          rw [ih g rest (by omega) (by omega)]

theorem pyReplace_nil (pat repl : List Char) : pyReplace pat repl [] = [] := rfl

theorem pyReplace_pos (pat repl : List Char) (a : Char) (rest : List Char)
    (hp : pat ≠ []) (hpre : pat <+: (a :: rest)) :
    pyReplace pat repl (a :: rest) =
      repl ++ pyReplace pat repl ((a :: rest).drop pat.length) := by
  have hlp : 1 ≤ pat.length := by
    cases pat with
    | nil => simp at hp
    | cons _ _ => simp
  unfold pyReplace
  simp only [List.length_cons, pyReplaceF]
  rw [if_pos ⟨hp, List.isPrefixOf_iff_prefix.mpr hpre⟩]
  congr 1
  exact pyReplaceF_congr pat repl _ _ _
    (by simp only [List.length_drop, List.length_cons]; omega) (le_refl _)

theorem pyReplace_neg (pat repl : List Char) (a : Char) (rest : List Char)
    (h : ¬ (pat ≠ [] ∧ pat <+: (a :: rest))) :
    pyReplace pat repl (a :: rest) = a :: pyReplace pat repl rest := by
  unfold pyReplace
  simp only [List.length_cons, pyReplaceF]
  rw [if_neg (by simpa [List.isPrefixOf_iff_prefix] using h)]

theorem pyReplace_append_of_prefix (pat repl : List Char) (hp : pat ≠ []) (z : List Char) :
    pyReplace pat repl (pat ++ z) = repl ++ pyReplace pat repl z := by
  cases hpat : pat with
  | nil => exact absurd hpat hp
  | cons p ps =>
    rw [← hpat]
    have : pat ++ z = pat.head (by simp [hpat]) :: (pat.tail ++ z) := by
      cases pat with
      | nil => simp at hpat
      | cons q qs => simp
    rw [this, pyReplace_pos _ _ _ _ hp]
    · congr 1
      have : (pat.head (by simp [hpat]) :: (pat.tail ++ z)) = pat ++ z := this.symm
      rw [this]
      congr 1
      simp [List.drop_left]
    · rw [← this]
      exact ⟨z, rfl⟩

/-! ## Claim C7 / C10: `add_slide_to_presentation` insertion -/

theorem insertAt_eq_take_drop (e : SldEntry) :
    ∀ (k : Nat) (l : List SldEntry), k ≤ l.length →
      insertAt k e l = l.take k ++ e :: l.drop k := by
  intro k
  induction k with
  | zero => intro l _; simp [insertAt]
  | succ n ih =>
    intro l h
    cases l with
    | nil => simp at h
    | cons x xs =>
      simp only [insertAt, List.take_succ_cons, List.drop_succ_cons, List.cons_append]
      rw [ih xs (by simpa using h)]

/-- C7: `insert_slide` inserts the new slide entry at a 1-based position
clamped to `[1, length+1]`, and appends when no position is given; in
particular, on a 3-slide list, `position=0` inserts at the front and
`position=10000` at the back, both valid boundaries, without raising. -/
theorem c7_insert_position_clamped (sldId : Nat) (rid : String) :
    (∀ e1 e2 e3 : SldEntry,
      insertEntries [e1, e2, e3] sldId rid (some 0) = ⟨sldId, rid⟩ :: [e1, e2, e3] ∧
      insertEntries [e1, e2, e3] sldId rid (some 10000) = [e1, e2, e3] ++ [⟨sldId, rid⟩]) ∧
    (∀ (entries : List SldEntry) (pos : Int), ∃ k : Nat, k ≤ entries.length ∧
      insertEntries entries sldId rid (some pos) =
        entries.take k ++ ⟨sldId, rid⟩ :: entries.drop k) ∧
    (∀ entries : List SldEntry,
      insertEntries entries sldId rid none = entries ++ [⟨sldId, rid⟩]) := by
  refine ⟨fun e1 e2 e3 => ⟨rfl, rfl⟩, fun entries pos => ?_, fun entries => rfl⟩
  refine ⟨(max 0 (min (pos - 1) (entries.length : Int))).toNat, ?_, ?_⟩
  · omega
  · exact insertAt_eq_take_drop _ _ _ (by omega)

/-- C10: for every position argument (including `None`),
`add_slide_to_presentation` keeps every pre-existing entry of the ordered
slide list, in its original relative order, and grows the list by exactly
one entry. -/
theorem c10_insert_preserves_entries (entries : List SldEntry) (sldId : Nat)
    (rid : String) (position : Option Int) :
    (insertEntries entries sldId rid position).length = entries.length + 1 ∧
    ∃ k : Nat, k ≤ entries.length ∧
      insertEntries entries sldId rid position =
        entries.take k ++ ⟨sldId, rid⟩ :: entries.drop k := by
  have base : ∃ k : Nat, k ≤ entries.length ∧
      insertEntries entries sldId rid position =
        entries.take k ++ ⟨sldId, rid⟩ :: entries.drop k := by
    cases position with
    | none =>
      exact ⟨entries.length, le_refl _, by simp [insertEntries]⟩
    | some pos =>
      refine ⟨(max 0 (min (pos - 1) (entries.length : Int))).toNat, by omega, ?_⟩
      exact insertAt_eq_take_drop _ _ _ (by omega)
  obtain ⟨k, hk, he⟩ := base
  refine ⟨?_, ⟨k, hk, he⟩⟩
  rw [he]
  simp only [List.length_append, List.length_cons, List.length_take, List.length_drop]
  omega

/-! ## Claim C1: `_condense_xml` and visible text -/

theorem nodeSize_pos : ∀ n : XNode, 1 ≤ nodeSize n
  | .elem _ _ => by rw [nodeSize]; omega
  | .text _ => le_refl _
  | .comment _ => le_refl _

theorem nodeSize_le_of_mem : ∀ {cs : List XNode} {c : XNode}, c ∈ cs →
    nodeSize c ≤ nodeListSize cs := by
  intro cs
  induction cs with
  | nil => intro c h; simp at h
  | cons x xs ih =>
    intro c h
    rw [nodeListSize]
    rcases List.mem_cons.mp h with h | h
    · subst h; omega
    · have := ih h; omega

theorem condenseF_congr : ∀ f₁ f₂ n, nodeSize n ≤ f₁ → nodeSize n ≤ f₂ →
    condenseF f₁ n = condenseF f₂ n := by
  intro f₁
  induction f₁ with
  | zero =>
    intro f₂ n h1 _
    have := nodeSize_pos n
    omega
  | succ f ih =>
    intro f₂ n h1 h2
    cases f₂ with
    | zero => have := nodeSize_pos n; omega
    | succ g =>
      cases n with
      | text v => rfl
      | comment v => rfl
      | elem t cs =>
        simp only [condenseF]
        congr 1
        apply List.map_congr_left
        intro c hc
        have hcs : c ∈ cs := by
          by_cases ht : strEndsWith t ":t" <;> simp [ht] at hc
          · exact hc
          · exact hc.1
        have hsz : nodeSize c ≤ nodeListSize cs := nodeSize_le_of_mem hcs
        rw [nodeSize] at h1 h2
        exact ih g c (by omega) (by omega)

/-- Unfolding equation of `_condense_xml` on an element, in source shape. -/
theorem condense_xml_elem (t : String) (cs : List XNode) :
    condense_xml (.elem t cs) =
      .elem t ((if strEndsWith t ":t" then cs
                else cs.filter (fun c => !(removableChild c))).map condense_xml) := by
  unfold condense_xml
  rw [nodeSize, Nat.add_comm 1 (nodeListSize cs)]
  simp only [condenseF]
  congr 1
  apply List.map_congr_left
  intro c hc
  have hcs : c ∈ cs := by
    by_cases ht : strEndsWith t ":t" <;> simp [ht] at hc
    · exact hc
    · exact hc.1
  have hsz : nodeSize c ≤ nodeListSize cs := nodeSize_le_of_mem hcs
  exact condenseF_congr _ _ c (by omega) (le_refl _)

theorem condense_xml_text (v : String) : condense_xml (.text v) = .text v := rfl

theorem condense_xml_comment (v : String) : condense_xml (.comment v) = .comment v := rfl

theorem removableChild_condense (c : XNode) :
    removableChild (condense_xml c) = removableChild c := by
  cases c with
  | elem t cs => rw [condense_xml_elem]; rfl
  | text v => rfl
  | comment v => rfl

theorem condensedShapeList_eq_all (l : List XNode) :
    condensedShapeList l = l.all condensedShape := by
  induction l with
  | nil => rfl
  | cons c cs ih => rw [condensedShapeList, List.all_cons, ih]

theorem textContentList_map_condense_of_text (cs : List XNode)
    (h : ∀ c ∈ cs, c.isTextNode = true) :
    textContentList (cs.map condense_xml) = textContentList cs := by
  induction cs with
  | nil => rfl
  | cons c cs' ih =>
    have hc := h c (List.mem_cons_self _ _)
    cases c with
    | text v =>
      rw [List.map_cons, textContentList, textContentList, condense_xml_text]
      rw [ih (fun x hx => h x (List.mem_cons_of_mem _ hx))]
    | elem t' cs'' => simp [XNode.isTextNode] at hc
    | comment v => simp [XNode.isTextNode] at hc

/-- C1 (counterexample): the claim quantifies over elements by *local*
name, but the code skips an element only when its *qualified* tag name ends
in `":t"` (`element.tagName.endswith(":t")`).  An element serialized
without a namespace prefix — tag name `t`, local name `t` — is condensed
like any other element: its whitespace-only text child is deleted, changing
its text content. -/
theorem c1_condense_counterexample :
    localName "t" = "t" ∧
    textContent (condense_xml (XNode.elem "t" [XNode.text " "])) ≠
      textContent (XNode.elem "t" [XNode.text " "]) := by
  constructor
  · decide
  · decide

/-- C1 (amended): `_condense_xml` removes whitespace-only text nodes and
comments from every element whose qualified tag name does not end in
`":t"`, and the text content of an element whose qualified tag name ends in
`":t"` and whose children are all text nodes is byte-identical before and
after condensation. -/
theorem c1_condense_amended :
    (∀ n : XNode, condensedShape (condense_xml n) = true) ∧
    (∀ (t : String) (cs : List XNode), strEndsWith t ":t" = true →
      (∀ c ∈ cs, c.isTextNode = true) →
      textContent (condense_xml (.elem t cs)) = textContent (.elem t cs)) := by
  constructor
  · have main : ∀ k, ∀ n : XNode, nodeSize n ≤ k → condensedShape (condense_xml n) = true := by
      intro k
      induction k with
      | zero => intro n h; have := nodeSize_pos n; omega
      | succ k ih =>
        intro n h
        cases n with
        | text v => rfl
        | comment v => rfl
        | elem t cs =>
          rw [condense_xml_elem, condensedShape, Bool.and_eq_true, Bool.or_eq_true]
          have hkept : ∀ c, (c ∈ if strEndsWith t ":t" then cs
              else cs.filter (fun c => !(removableChild c))) → c ∈ cs := by
            intro c hc
            by_cases ht : strEndsWith t ":t" <;> simp [ht] at hc
            · exact hc
            · exact hc.1
          constructor
          · by_cases ht : strEndsWith t ":t"
            · exact Or.inl ht
            · refine Or.inr ?_
              rw [List.all_eq_true]
              intro x hx
              rw [if_neg ht] at hx
              obtain ⟨c, hc, rfl⟩ := List.mem_map.mp hx
              rw [removableChild_condense]
              exact (List.mem_filter.mp hc).2
          · rw [condensedShapeList_eq_all, List.all_eq_true]
            intro x hx
            obtain ⟨c, hc, rfl⟩ := List.mem_map.mp hx
            have hcs : c ∈ cs := hkept c hc
            have hsz : nodeSize c ≤ nodeListSize cs := nodeSize_le_of_mem hcs
            rw [nodeSize] at h
            exact ih c (by omega)
    intro n
    exact main (nodeSize n) n (le_refl _)
  · intro t cs ht hall
    rw [condense_xml_elem, if_pos ht, textContent, textContent]
    exact textContentList_map_condense_of_text cs hall

theorem c1_condense_amended_witness :
    condensedShape (condense_xml (XNode.elem "p:sp"
      [XNode.text "  ", XNode.comment "c", XNode.elem "a:t" [XNode.text " x "]])) = true ∧
    textContent (condense_xml (XNode.elem "a:t" [XNode.text " x "])) =
      textContent (XNode.elem "a:t" [XNode.text " x "]) :=
  ⟨c1_condense_amended.1 _,
   c1_condense_amended.2 "a:t" [XNode.text " x "] (by decide) (by decide)⟩

/-! ## Claim C8: notes-slide relationships of a duplicated slide -/

/-- C8 (counterexample): the strip is a text substitution whose pattern
requires a self-closing `/>`; a notes-slide relationship serialized with a
separate closing tag (`<Relationship ...></Relationship>`) is not matched,
so the duplicated slide relationships file still contains a relationship of
notes-slide type — the claim's "regardless of how that relationship was
serialized" fails. -/
theorem c8_strip_notes_counterexample :
    stripNotesSlideRels
        [⟨"rId2", notesSlideTypeURI, "../notesSlides/notesSlide1.xml", false⟩] =
      [⟨"rId2", notesSlideTypeURI, "../notesSlides/notesSlide1.xml", false⟩] ∧
    (stripNotesSlideRels
        [⟨"rId2", notesSlideTypeURI, "../notesSlides/notesSlide1.xml", false⟩]).any
      isNotesSlideType = true := by
  constructor
  · decide
  · decide

/-- C8 (amended): the copied relationships file is stripped of every
relationship serialized as a self-closing element whose `Type` value ends
in `notesSlide` — in particular of every canonically (self-closing)
serialized notes-slide relationship — while a notes-slide relationship
serialized with a separate closing tag survives: any notes-slide-typed
relationship remaining after the strip is a non-self-closing one. -/
theorem c8_strip_notes_amended (rels : List RelXml) :
    (∀ r ∈ rels, r.selfClosing = true → strEndsWith r.type "notesSlide" = true →
      r ∉ stripNotesSlideRels rels) ∧
    (∀ r ∈ stripNotesSlideRels rels, isNotesSlideType r = true →
      r.selfClosing = false) := by
  constructor
  · intro r _ hsc hty hmem
    have h2 := (List.mem_filter.mp hmem).2
    rw [hsc, hty] at h2
    simp at h2
  · intro r hmem hty
    have h2 := (List.mem_filter.mp hmem).2
    have hty' : strEndsWith r.type "notesSlide" = true := by
      have he : r.type = notesSlideTypeURI := by
        simpa [isNotesSlideType] using hty
      rw [he]; decide
    cases hsc : r.selfClosing
    · rfl
    · rw [hsc, hty'] at h2; simp at h2

theorem c8_strip_notes_amended_witness :
    (⟨"rId2", notesSlideTypeURI, "../notesSlides/notesSlide1.xml", true⟩ : RelXml) ∉
      stripNotesSlideRels
        [⟨"rId2", notesSlideTypeURI, "../notesSlides/notesSlide1.xml", true⟩] ∧
    (⟨"rId9", notesSlideTypeURI, "x", false⟩ : RelXml).selfClosing = false :=
  ⟨(c8_strip_notes_amended
      [⟨"rId2", notesSlideTypeURI, "../notesSlides/notesSlide1.xml", true⟩]).1
      _ (by decide) (by decide) (by decide),
   (c8_strip_notes_amended [⟨"rId9", notesSlideTypeURI, "x", false⟩]).2
      _ (by decide) (by decide)⟩

/-! ## Claim C2: smart-quote escape / restore round trip

The sequential `replace` calls are related to a single per-character
encoding (`encOf`): each stage turns `s.flatMap (encOf D)` into
`s.flatMap (encOf D')`.  The key step lemma `pyReplace_flatMap_step`
characterizes one `replace` over such an encoded string. -/

theorem pyReplace_skip (p r : List Char) (_hp : p ≠ []) :
    ∀ (u z : List Char), (∀ v w, u = v ++ w → w ≠ [] → ¬ p <+: (w ++ z)) →
      pyReplace p r (u ++ z) = u ++ pyReplace p r z := by
  intro u
  induction u with
  | nil => intro z _; simp
  | cons a u' ih =>
    intro z h
    have hnm : ¬ (p ≠ [] ∧ p <+: (a :: (u' ++ z))) := by
      intro hc
      exact h [] (a :: u') rfl (by simp) (by simpa using hc.2)
    rw [List.cons_append, pyReplace_neg _ _ _ _ hnm,
      ih z (fun v w hvw hw => h (a :: v) w (by rw [hvw]; rfl) hw)]
    rfl

theorem pyReplace_flatMap_step (p r : List Char) (hp : p ≠ [])
    (h h' : Char → List Char) (P : Char → Bool)
    (hPp : ∀ x, P x = true → h x = p)
    (hPr : ∀ x, P x = true → h' x = r)
    (hNP : ∀ x, P x = false → h' x = h x) :
    ∀ s : List Char,
      (∀ s₁ x s₂, s = s₁ ++ x :: s₂ → P x = false →
        ∀ v w, h x = v ++ w → w ≠ [] → ¬ p <+: (w ++ s₂.flatMap h)) →
      pyReplace p r (s.flatMap h) = s.flatMap h' := by
  intro s
  induction s with
  | nil => intro _; rfl
  | cons x s' ih =>
    intro hS
    rw [List.flatMap_cons, List.flatMap_cons]
    cases hPx : P x with
    | true =>
      rw [hPp x hPx, hPr x hPx, pyReplace_append_of_prefix p r hp]
      congr 1
      apply ih
      intro s₁ y s₂ hsplit hPy v w hvw hw
      exact hS (x :: s₁) y s₂ (by rw [hsplit]; rfl) hPy v w hvw hw
    | false =>
      rw [hNP x hPx, pyReplace_skip p r hp (h x) _ ?_]
      · congr 1
        apply ih
        intro s₁ y s₂ hsplit hPy v w hvw hw
        exact hS (x :: s₁) y s₂ (by rw [hsplit]; rfl) hPy v w hvw hw
      · intro v w hvw hw
        exact hS [] x s' rfl hPx v w hvw hw

theorem prefix_flatMap_amp (h : Char → List Char)
    (hH : ∀ y, h y = [y] ∨ (h y).head? = some '&') :
    ∀ (t q : List Char), '&' ∉ q → q <+: t.flatMap h → q <+: t := by
  intro t
  induction t with
  | nil =>
    intro q hq hpre
    rw [List.flatMap_nil] at hpre
    exact hpre
  | cons y t' ih =>
    intro q hq hpre
    cases q with
    | nil => exact List.nil_prefix
    | cons a q' =>
      rw [List.flatMap_cons] at hpre
      rcases hH y with hy | hy
      · rw [hy, List.singleton_append, List.cons_prefix_cons] at hpre
        obtain ⟨rfl, hq'⟩ := hpre
        exact List.cons_prefix_cons.mpr
          ⟨rfl, ih q' (fun hmem => hq (List.mem_cons_of_mem _ hmem)) hq'⟩
      · exfalso
        obtain ⟨tl, htl⟩ : ∃ tl, h y = '&' :: tl := by
          cases hhy : h y with
          | nil => rw [hhy] at hy; simp at hy
          | cons b bs =>
            rw [hhy] at hy
            simp only [List.head?_cons, Option.some.injEq] at hy
            exact ⟨bs, by rw [hy]⟩
        rw [htl, List.cons_append, List.cons_prefix_cons] at hpre
        apply hq
        rw [hpre.1]
        exact List.mem_cons_self _ _

theorem flatMap_encOf_nil (s : List Char) : s.flatMap (encOf []) = s := by
  induction s with
  | nil => rfl
  | cons x s' ih => rw [List.flatMap_cons, ih]; rfl

theorem encOf_eq_self (L : List (Char × List Char)) (x : Char)
    (h : ∀ ce ∈ L, ce.1 ≠ x) : encOf L x = [x] := by
  induction L with
  | nil => rfl
  | cons ce rest ih =>
    rw [encOf, if_neg (h ce (List.mem_cons_self _ _))]
    exact ih (fun ce' hce' => h ce' (List.mem_cons_of_mem _ hce'))

theorem encOf_append_of_miss (D L : List (Char × List Char)) (x : Char)
    (h : ∀ ce ∈ D, ce.1 ≠ x) : encOf (D ++ L) x = encOf L x := by
  induction D with
  | nil => rfl
  | cons ce rest ih =>
    rw [List.cons_append, encOf, if_neg (h ce (List.mem_cons_self _ _))]
    exact ih (fun ce' hce' => h ce' (List.mem_cons_of_mem _ hce'))

theorem encOf_append_single_ne (D : List (Char × List Char)) (c x : Char)
    (ent : List Char) (h : x ≠ c) : encOf (D ++ [(c, ent)]) x = encOf D x := by
  induction D with
  | nil =>
    simp only [List.nil_append, encOf]
    rw [if_neg (fun hc => h hc.symm)]
  | cons ce rest ih =>
    rw [List.cons_append, encOf, encOf]
    by_cases hce : ce.1 = x
    · rw [if_pos hce, if_pos hce]
    · rw [if_neg hce, if_neg hce, ih]

theorem encOf_cases (L : List (Char × List Char)) (x : Char) :
    encOf L x = [x] ∨ ∃ ce ∈ L, ce.1 = x ∧ encOf L x = ce.2 := by
  induction L with
  | nil => exact Or.inl rfl
  | cons ce rest ih =>
    by_cases hce : ce.1 = x
    · exact Or.inr ⟨ce, List.mem_cons_self _ _, hce, by rw [encOf, if_pos hce]⟩
    · rw [encOf, if_neg hce]
      rcases ih with h | ⟨ce', hce', hx, he⟩
      · exact Or.inl h
      · exact Or.inr ⟨ce', List.mem_cons_of_mem _ hce', hx, he⟩

/-- One `content.replace(char, entity)` call of `_escape_smart_quotes`,
acting on a string where the characters of `D` are already encoded:
requires that `c` is distinct from the already-encoded characters and does
not occur in their entities. -/
theorem encode_step (D : List (Char × List Char)) (c : Char) (ent : List Char)
    (hD : ∀ ce ∈ D, ce.1 ≠ c ∧ c ∉ ce.2) (s : List Char) :
    pyReplace [c] ent (s.flatMap (encOf D)) = s.flatMap (encOf (D ++ [(c, ent)])) := by
  refine pyReplace_flatMap_step [c] ent (by simp) (encOf D) (encOf (D ++ [(c, ent)]))
    (fun x => x == c) ?hPp ?hPr ?hNP s ?side
  case hPp =>
    intro x hx
    have hxc : x = c := by simpa using hx
    subst hxc
    exact encOf_eq_self D x (fun ce hce => (hD ce hce).1)
  case hPr =>
    intro x hx
    have hxc : x = c := by simpa using hx
    subst hxc
    rw [encOf_append_of_miss D [(x, ent)] x (fun ce hce => (hD ce hce).1), encOf,
      if_pos rfl]
  case hNP =>
    intro x hx
    have hxc : ¬ (x = c) := by simpa using hx
    exact encOf_append_single_ne D c x ent hxc
  case side =>
    intro s₁ x s₂ _ hPx v w hvw hw hpre
    have hxc : ¬ (x = c) := by simpa using hPx
    cases w with
    | nil => exact hw rfl
    | cons b w' =>
      rw [List.cons_append, List.cons_prefix_cons] at hpre
      have hcb : c = b := hpre.1
      have hbmem : b ∈ encOf D x := by
        rw [hvw]
        exact List.mem_append_right v (List.mem_cons_self _ _)
      rcases encOf_cases D x with he | ⟨ce, hce, hcex, he⟩
      · rw [he] at hbmem
        have hbx : b = x := by simpa using hbmem
        exact hxc (by rw [← hbx, ← hcb])
      · rw [he] at hbmem
        exact (hD ce hce).2 (hcb ▸ hbmem)

/-- One `content.replace(entity, char)` call of `_restore_smart_quotes`,
acting on a string where `c` and the characters of `R` are encoded and the
original string `s` contains no literal occurrence of `ent`. -/
theorem decode_step (R : List (Char × List Char)) (c : Char) (ent : List Char)
    (s : List Char)
    (hno : ¬ ent <:+: s)
    (hent_head : ent.head? = some '&')
    (hent_tail : '&' ∉ ent.tail)
    (hR : ∀ ce ∈ R, ce.1 ≠ c ∧ ce.2 ≠ ent ∧ ce.2.length = ent.length ∧
      ce.2.head? = some '&' ∧ '&' ∉ ce.2.tail) :
    pyReplace ent [c] (s.flatMap (encOf ((c, ent) :: R))) = s.flatMap (encOf R) := by
  have hent_ne : ent ≠ [] := by
    intro hnil; rw [hnil] at hent_head; simp at hent_head
  obtain ⟨etl, hetl⟩ : ∃ etl, ent = '&' :: etl := by
    cases hent : ent with
    | nil => exact absurd hent hent_ne
    | cons b bs =>
      rw [hent] at hent_head
      simp only [List.head?_cons, Option.some.injEq] at hent_head
      exact ⟨bs, by rw [hent_head]⟩
  have hetl_amp : '&' ∉ etl := by
    intro hmem
    apply hent_tail
    rw [hetl]
    simpa using hmem
  refine pyReplace_flatMap_step ent [c] hent_ne (encOf ((c, ent) :: R)) (encOf R)
    (fun x => x == c) ?hPp ?hPr ?hNP s ?side
  case hPp =>
    intro x hx
    have hxc : x = c := by simpa using hx
    subst hxc
    rw [encOf, if_pos rfl]
  case hPr =>
    intro x hx
    have hxc : x = c := by simpa using hx
    subst hxc
    exact encOf_eq_self R x (fun ce hce => (hR ce hce).1)
  case hNP =>
    intro x hx
    have hxc : ¬ (x = c) := by simpa using hx
    rw [encOf, if_neg (fun hc => hxc hc.symm)]
  case side =>
    intro s₁ x s₂ hsplit hPx v w hvw hw hpre
    have hxc : ¬ (x = c) := by simpa using hPx
    have hH' : ∀ y, encOf ((c, ent) :: R) y = [y] ∨
        (encOf ((c, ent) :: R) y).head? = some '&' := by
      intro y
      rcases encOf_cases ((c, ent) :: R) y with he | ⟨ce, hce, hcey, he⟩
      · exact Or.inl he
      · refine Or.inr ?_
        rw [he]
        rcases List.mem_cons.mp hce with hcc | hcR
        · rw [hcc, hetl]; rfl
        · exact (hR ce hcR).2.2.2.1
    have hx_enc : encOf ((c, ent) :: R) x = encOf R x := by
      rw [encOf, if_neg (fun hc => hxc hc.symm)]
    rw [hx_enc] at hvw
    rcases encOf_cases R x with he | ⟨ce, hceR, hcex, he⟩
    · -- h x = [x]: the match would start at an original character of s;
      -- its tail would force the literal entity to occur in s
      rw [he] at hvw
      have hwx : w = [x] := by
        cases v with
        | nil => exact hvw.symm
        | cons vh vt =>
          exfalso
          cases w with
          | nil => exact hw rfl
          | cons wh wt =>
            have hlen := congrArg List.length hvw
            simp at hlen
      subst hwx
      rw [hetl, List.cons_append, List.nil_append, List.cons_prefix_cons] at hpre
      obtain ⟨hxamp, hpre2⟩ := hpre
      rw [← hetl] at hpre2
      have hq : etl <+: s₂ :=
        prefix_flatMap_amp (encOf ((c, ent) :: R)) hH' s₂ etl hetl_amp hpre2
      apply hno
      obtain ⟨s₃, hs₃⟩ := hq
      refine ⟨s₁, s₃, ?_⟩
      rw [hsplit, ← hs₃, hetl, hxamp]
      simp
    · -- h x = ce.2: the match would have to start inside another entity
      rw [he] at hvw
      obtain ⟨-, hce_ne, hce_len, hce_head, hce_tail⟩ := hR ce hceR
      cases v with
      | nil =>
        -- w = ce.2 whole: equal lengths force ent = ce.2
        rw [List.nil_append] at hvw
        obtain ⟨zz, hzz⟩ := hpre
        have h1 : ent = (w ++ s₂.flatMap (encOf ((c, ent) :: R))).take ent.length := by
          rw [← hzz, List.take_left]
        have h2 : (w ++ s₂.flatMap (encOf ((c, ent) :: R))).take ent.length = w :=
          List.take_left' (by rw [← hvw, hce_len])
        rw [h2] at h1
        exact hce_ne (hvw.trans h1.symm)
      | cons vh vt =>
        -- w is a proper suffix of ce.2, so its head is not the leading
        -- ampersand of ent
        cases w with
        | nil => exact hw rfl
        | cons wh wt =>
          have hwh_mem : wh ∈ ce.2.tail := by
            have htail : ce.2.tail = vt ++ wh :: wt := by
              have := congrArg List.tail hvw
              simpa using this
            rw [htail]
            exact List.mem_append_right vt (List.mem_cons_self _ _)
          rw [hetl, List.cons_append, List.cons_prefix_cons] at hpre
          exact hce_tail (hpre.1 ▸ hwh_mem)

/-- The `for char, entity in ...items()` loop of `_escape_smart_quotes`,
related to the simultaneous encoding: processing the remaining pairs `Rm`
on a string whose `D`-characters are already encoded encodes `D ++ Rm`. -/
theorem escape_fold_inv :
    ∀ (Rm D : List (Char × List Char)) (s : List Char),
      (∀ ce ∈ Rm, ∀ ce' ∈ D, ce'.1 ≠ ce.1 ∧ ce.1 ∉ ce'.2) →
      List.Pairwise (fun a b => a.1 ≠ b.1 ∧ b.1 ∉ a.2) Rm →
      List.foldl (fun acc ce => pyReplace [ce.1] ce.2 acc) (s.flatMap (encOf D)) Rm =
        s.flatMap (encOf (D ++ Rm)) := by
  intro Rm
  induction Rm with
  | nil =>
    intro D s _ _
    rw [List.foldl_nil, List.append_nil]
  | cons ce Rm' ih =>
    intro D s h1 h2
    rw [List.foldl_cons,
      encode_step D ce.1 ce.2 (fun ce' hce' => h1 ce (List.mem_cons_self _ _) ce' hce') s]
    have h1' : ∀ b ∈ Rm', ∀ ce' ∈ D ++ [(ce.1, ce.2)], ce'.1 ≠ b.1 ∧ b.1 ∉ ce'.2 := by
      intro b hb ce' hce'
      rcases List.mem_append.mp hce' with hD | hsing
      · exact h1 b (List.mem_cons_of_mem _ hb) ce' hD
      · have : ce' = (ce.1, ce.2) := by simpa using hsing
        subst this
        have := (List.pairwise_cons.mp h2).1 b hb
        exact ⟨this.1, this.2⟩
    rw [ih (D ++ [(ce.1, ce.2)]) s h1' (List.pairwise_cons.mp h2).2]
    rw [List.append_assoc]
    rfl

/-- The `for entity, char in ...items()` loop of `_restore_smart_quotes`:
decoding the pairs of `Rm` on the `Rm`-encoded form of `s` recovers `s`,
provided `s` contains none of the entities literally. -/
theorem restore_fold_inv :
    ∀ (Rm : List (Char × List Char)) (s : List Char),
      (∀ ce ∈ Rm, ¬ ce.2 <:+: s ∧ ce.2.head? = some '&' ∧ '&' ∉ ce.2.tail) →
      (∀ ce ∈ Rm, ∀ ce' ∈ Rm, ce.2.length = ce'.2.length) →
      List.Pairwise (fun a b => b.1 ≠ a.1 ∧ b.2 ≠ a.2) Rm →
      List.foldl (fun acc ce => pyReplace ce.2 [ce.1] acc) (s.flatMap (encOf Rm)) Rm = s := by
  intro Rm
  induction Rm with
  | nil => intro s _ _ _; exact flatMap_encOf_nil s
  | cons ce Rm' ih =>
    intro s hA hLen hPW
    have hAce := hA ce (List.mem_cons_self _ _)
    have hR : ∀ ce' ∈ Rm', ce'.1 ≠ ce.1 ∧ ce'.2 ≠ ce.2 ∧ ce'.2.length = ce.2.length ∧
        ce'.2.head? = some '&' ∧ '&' ∉ ce'.2.tail := by
      intro ce' hce'
      have hpw := (List.pairwise_cons.mp hPW).1 ce' hce'
      have hA' := hA ce' (List.mem_cons_of_mem _ hce')
      exact ⟨hpw.1, hpw.2,
        hLen ce' (List.mem_cons_of_mem _ hce') ce (List.mem_cons_self _ _),
        hA'.2.1, hA'.2.2⟩
    rw [List.foldl_cons,
      decode_step Rm' ce.1 ce.2 s hAce.1 hAce.2.1 hAce.2.2 hR]
    exact ih s (fun ce' hce' => hA ce' (List.mem_cons_of_mem _ hce'))
      (fun a ha b hb => hLen a (List.mem_cons_of_mem _ ha) b (List.mem_cons_of_mem _ hb))
      (List.pairwise_cons.mp hPW).2

/-- C2 (counterexample): escape-then-restore is not the identity on every
input containing the four smart-quote code points.  An input that also
contains one of the numeric character references literally (here
`&#x2019;`) has that literal text turned into the smart quote by
`_restore_smart_quotes`, so the round trip is not the identity. -/
theorem c2_escape_restore_counterexample :
    restore_smart_quotes (escape_smart_quotes
        ([smartLQ, smartRQ, smartLS, smartRS] ++ "&#x2019;".toList)) ≠
      [smartLQ, smartRQ, smartLS, smartRS] ++ "&#x2019;".toList ∧
    smartLQ ∈ ([smartLQ, smartRQ, smartLS, smartRS] ++ "&#x2019;".toList) ∧
    smartRQ ∈ ([smartLQ, smartRQ, smartLS, smartRS] ++ "&#x2019;".toList) ∧
    smartLS ∈ ([smartLQ, smartRQ, smartLS, smartRS] ++ "&#x2019;".toList) ∧
    smartRS ∈ ([smartLQ, smartRQ, smartLS, smartRS] ++ "&#x2019;".toList) := by
  refine ⟨?_, by decide, by decide, by decide, by decide⟩
  decide

/-- C2 (amended): `_restore_smart_quotes` after `_escape_smart_quotes` is
the identity on every input that does not already contain one of the four
numeric character references as a literal substring (in particular on any
such input containing the four smart-quote code points), and in that case
restore maps each reference produced by escape back to the original
character. -/
theorem c2_escape_restore_amended (s : List Char) (h : noEntity s) :
    restore_smart_quotes (escape_smart_quotes s) = s := by
  have hesc : escape_smart_quotes s = s.flatMap (encOf smartQuotePairs) := by
    unfold escape_smart_quotes
    nth_rewrite 1 [← flatMap_encOf_nil s]
    rw [escape_fold_inv smartQuotePairs [] s (fun ce _ ce' hce' => absurd hce' (by simp))
      (by decide)]
    rw [List.nil_append]
  rw [hesc]
  unfold restore_smart_quotes
  apply restore_fold_inv smartQuotePairs s ?hA (by decide) (by decide)
  case hA =>
    intro ce hce
    obtain ⟨h1, h2, h3, h4⟩ := h
    simp only [smartQuotePairs, List.mem_cons, List.not_mem_nil, or_false] at hce
    rcases hce with rfl | rfl | rfl | rfl
    · exact ⟨h1, by decide, by decide⟩
    · exact ⟨h2, by decide, by decide⟩
    · exact ⟨h3, by decide, by decide⟩
    · exact ⟨h4, by decide, by decide⟩

theorem c2_escape_restore_amended_witness :
    noEntity ("a".toList ++ [smartLQ, smartRQ, smartLS, smartRS] ++ "b".toList) ∧
    restore_smart_quotes (escape_smart_quotes
        ("a".toList ++ [smartLQ, smartRQ, smartLS, smartRS] ++ "b".toList)) =
      "a".toList ++ [smartLQ, smartRQ, smartLS, smartRS] ++ "b".toList :=
  ⟨by decide, c2_escape_restore_amended _ (by decide)⟩

/-! ## The `clean` pipeline: basic step lemmas -/

theorem filter_length_lt {α : Type} (q : α → Bool) (l : List α) (x : α)
    (hx : x ∈ l) (hq : q x = false) : (l.filter q).length < l.length := by
  induction l with
  | nil => simp at hx
  | cons a l' ih =>
    rcases List.mem_cons.mp hx with rfl | hx'
    · rw [List.filter_cons_of_neg (by simp [hq])]
      have := List.length_filter_le q l'
      simp only [List.length_cons]
      omega
    · by_cases hqa : q a = true
      · rw [List.filter_cons_of_pos hqa]
        have := ih hx'
        simp only [List.length_cons]
        omega
      · rw [List.filter_cons_of_neg hqa]
        have := List.length_filter_le q l'
        simp only [List.length_cons]
        omega

theorem remove_orphaned_rels_files_pres (p : Package) :
    (remove_orphaned_rels_files p).2.pres = p.pres := rfl

theorem remove_orphaned_rels_files_presRels (p : Package) :
    (remove_orphaned_rels_files p).2.presRels = p.presRels := rfl

theorem remove_orphaned_rels_files_ctypes (p : Package) :
    (remove_orphaned_rels_files p).2.ctypes = p.ctypes := rfl

theorem remove_orphaned_rels_files_files (p : Package) :
    (remove_orphaned_rels_files p).2.files = p.files := rfl

theorem remove_orphaned_files_pres (p : Package) (referenced : List (List String)) :
    (remove_orphaned_files p referenced).2.pres = p.pres := rfl

theorem remove_orphaned_files_presRels (p : Package) (referenced : List (List String)) :
    (remove_orphaned_files p referenced).2.presRels = p.presRels := rfl

theorem remove_orphaned_files_ctypes (p : Package) (referenced : List (List String)) :
    (remove_orphaned_files p referenced).2.ctypes = p.ctypes := rfl

theorem loopPass_pres (p : Package) : (loopPass p).2.pres = p.pres := rfl

theorem loopPass_presRels (p : Package) : (loopPass p).2.presRels = p.presRels := rfl

theorem loopPass_ctypes (p : Package) : (loopPass p).2.ctypes = p.ctypes := rfl

theorem cleanLoopFuel_succ (f : Nat) (p : Package) :
    cleanLoopFuel (f + 1) p =
      if (loopPass p).1.isEmpty then ([], (loopPass p).2)
      else ((loopPass p).1 ++ (cleanLoopFuel f (loopPass p).2).1,
        (cleanLoopFuel f (loopPass p).2).2) := rfl

theorem cleanLoopFuel_pres : ∀ (fuel : Nat) (p : Package),
    (cleanLoopFuel fuel p).2.pres = p.pres ∧
    (cleanLoopFuel fuel p).2.presRels = p.presRels ∧
    (cleanLoopFuel fuel p).2.ctypes = p.ctypes := by
  intro fuel
  induction fuel with
  | zero => intro p; exact ⟨rfl, rfl, rfl⟩
  | succ f ih =>
    intro p
    rw [cleanLoopFuel_succ]
    by_cases hie : (loopPass p).1.isEmpty
    · rw [if_pos hie]
      exact ⟨loopPass_pres p, loopPass_presRels p, loopPass_ctypes p⟩
    · rw [if_neg hie]
      obtain ⟨h1, h2, h3⟩ := ih (loopPass p).2
      exact ⟨h1.trans (loopPass_pres p), h2.trans (loopPass_presRels p),
        h3.trans (loopPass_ctypes p)⟩

theorem update_content_types_pres (p : Package) (r : List String) :
    (update_content_types p r).pres = p.pres := by
  unfold update_content_types
  cases p.ctypes <;> rfl

theorem update_content_types_presRels (p : Package) (r : List String) :
    (update_content_types p r).presRels = p.presRels := by
  unfold update_content_types
  cases p.ctypes <;> rfl

theorem update_content_types_files (p : Package) (r : List String) :
    (update_content_types p r).files = p.files := by
  unfold update_content_types
  cases p.ctypes <;> rfl

theorem update_content_types_relsFiles (p : Package) (r : List String) :
    (update_content_types p r).relsFiles = p.relsFiles := by
  unfold update_content_types
  cases p.ctypes <;> rfl

theorem remove_orphaned_slides_ctypes (p : Package) :
    (remove_orphaned_slides p).2.ctypes = p.ctypes := by
  unfold remove_orphaned_slides
  split <;> rfl

theorem remove_orphaned_slides_pres (p : Package) :
    (remove_orphaned_slides p).2.pres = p.pres := by
  unfold remove_orphaned_slides
  split <;> rfl

theorem remove_trash_directory_ctypes (p : Package) :
    (remove_trash_directory p).2.ctypes = p.ctypes := rfl

theorem remove_trash_directory_pres (p : Package) :
    (remove_trash_directory p).2.pres = p.pres := rfl

theorem remove_trash_directory_presRels (p : Package) :
    (remove_trash_directory p).2.presRels = p.presRels := rfl

theorem remove_trash_directory_files_subset (p : Package) :
    ∀ q ∈ (remove_trash_directory p).2.files, q ∈ p.files := by
  intro q hq
  exact (List.mem_filter.mp hq).1

theorem remove_trash_directory_relsFiles_subset (p : Package) :
    ∀ e ∈ (remove_trash_directory p).2.relsFiles, e ∈ p.relsFiles := by
  intro e he
  exact (List.mem_filter.mp he).1

theorem remove_orphaned_files_files_subset (p : Package) (referenced : List (List String)) :
    ∀ q ∈ (remove_orphaned_files p referenced).2.files, q ∈ p.files := by
  intro q hq
  exact (List.mem_filter.mp (List.mem_filter.mp (List.mem_filter.mp hq).1).1).1

theorem remove_orphaned_files_relsFiles_subset (p : Package) (referenced : List (List String)) :
    ∀ e ∈ (remove_orphaned_files p referenced).2.relsFiles, e ∈ p.relsFiles := by
  intro e he
  exact (List.mem_filter.mp (List.mem_filter.mp he).1).1

theorem loopPass_files_subset (p : Package) :
    ∀ q ∈ (loopPass p).2.files, q ∈ p.files := by
  intro q hq
  have h1 := remove_orphaned_files_files_subset (remove_orphaned_rels_files p).2
    (get_referenced_files (remove_orphaned_rels_files p).2) q hq
  rw [remove_orphaned_rels_files_files] at h1
  exact h1

theorem loopPass_relsFiles_subset (p : Package) :
    ∀ e ∈ (loopPass p).2.relsFiles, e ∈ p.relsFiles := by
  intro e he
  have h1 := remove_orphaned_files_relsFiles_subset (remove_orphaned_rels_files p).2
    (get_referenced_files (remove_orphaned_rels_files p).2) e he
  exact (List.mem_filter.mp h1).1

theorem cleanLoopFuel_files_subset : ∀ (fuel : Nat) (p : Package),
    ∀ q ∈ (cleanLoopFuel fuel p).2.files, q ∈ p.files := by
  intro fuel
  induction fuel with
  | zero => intro p q hq; exact hq
  | succ f ih =>
    intro p q hq
    rw [cleanLoopFuel_succ] at hq
    by_cases hie : (loopPass p).1.isEmpty
    · rw [if_pos hie] at hq
      exact loopPass_files_subset p q hq
    · rw [if_neg hie] at hq
      exact loopPass_files_subset p q (ih (loopPass p).2 q hq)

theorem cleanLoopFuel_relsFiles_subset : ∀ (fuel : Nat) (p : Package),
    ∀ e ∈ (cleanLoopFuel fuel p).2.relsFiles, e ∈ p.relsFiles := by
  intro fuel
  induction fuel with
  | zero => intro p e he; exact he
  | succ f ih =>
    intro p e he
    rw [cleanLoopFuel_succ] at he
    by_cases hie : (loopPass p).1.isEmpty
    · rw [if_pos hie] at he
      exact loopPass_relsFiles_subset p e he
    · rw [if_neg hie] at he
      exact loopPass_relsFiles_subset p e (ih (loopPass p).2 e he)

theorem update_content_types_ctypes (p : Package) (r : List String) :
    (update_content_types p r).ctypes =
      p.ctypes.map (fun ov => ov.filter (fun pn => !(r.contains (stripLeadSlashes pn)))) := by
  unfold update_content_types
  cases hct : p.ctypes with
  | none => rw [hct]; rfl
  | some ov => rfl

theorem clean_decomp (pkg : Package) :
    clean pkg =
      ((remove_orphaned_slides pkg).1 ++
        (remove_trash_directory (remove_orphaned_slides pkg).2).1 ++
        (cleanLoop (remove_trash_directory (remove_orphaned_slides pkg).2).2).1,
       if ((remove_orphaned_slides pkg).1 ++
          (remove_trash_directory (remove_orphaned_slides pkg).2).1 ++
          (cleanLoop (remove_trash_directory (remove_orphaned_slides pkg).2).2).1).isEmpty
       then (cleanLoop (remove_trash_directory (remove_orphaned_slides pkg).2).2).2
       else update_content_types
         (cleanLoop (remove_trash_directory (remove_orphaned_slides pkg).2).2).2
         ((remove_orphaned_slides pkg).1 ++
          (remove_trash_directory (remove_orphaned_slides pkg).2).1 ++
          (cleanLoop (remove_trash_directory (remove_orphaned_slides pkg).2).2).1)) := rfl

theorem cleanLoop_state_ctypes (p : Package) : (cleanLoop p).2.ctypes = p.ctypes :=
  (cleanLoopFuel_pres _ _).2.2

/-- C4 (counterexample): an `Override` whose part never existed dangles
before `clean` and still dangles after it — `clean` only removes manifest
entries for the paths it deleted in this very call, here none. -/
theorem c4_manifest_counterexample :
    (clean (Package.mk (some [⟨256, "rId2"⟩])
        (some [⟨"rId2", "http://schemas.openxmlformats.org/officeDocument/2006/relationships/slide", "slides/slide1.xml"⟩])
        (some ["/ppt/slides/slide1.xml", "/ppt/slides/slide9.xml"])
        [] [["ppt", "slides", "slide1.xml"]])).2.ctypes =
      some ["/ppt/slides/slide1.xml", "/ppt/slides/slide9.xml"] ∧
    partExists (clean (Package.mk (some [⟨256, "rId2"⟩])
        (some [⟨"rId2", "http://schemas.openxmlformats.org/officeDocument/2006/relationships/slide", "slides/slide1.xml"⟩])
        (some ["/ppt/slides/slide1.xml", "/ppt/slides/slide9.xml"])
        [] [["ppt", "slides", "slide1.xml"]])).2
      ["ppt", "slides", "slide9.xml"] = false := by
  constructor
  · decide
  · decide

/-- C4 (amended): after `clean`, the manifest `Override` list is exactly
the input list minus the entries whose part path (leading slashes
stripped) is among the paths removed by this `clean` call; entries whose
part was already missing before the call are not removed. -/
theorem c4_manifest_amended (pkg : Package) :
    (clean pkg).2.ctypes =
      pkg.ctypes.map (fun ov =>
        ov.filter (fun pn => !((clean pkg).1.contains (stripLeadSlashes pn)))) := by
  have hc3 : (cleanLoop (remove_trash_directory (remove_orphaned_slides pkg).2).2).2.ctypes
      = pkg.ctypes := by
    rw [cleanLoop_state_ctypes, remove_trash_directory_ctypes, remove_orphaned_slides_ctypes]
  rw [clean_decomp]
  by_cases hie : ((remove_orphaned_slides pkg).1 ++
      (remove_trash_directory (remove_orphaned_slides pkg).2).1 ++
      (cleanLoop (remove_trash_directory (remove_orphaned_slides pkg).2).2).1).isEmpty
  · rw [if_pos hie]
    have hnil := List.isEmpty_iff.mp hie
    rw [hnil, hc3]
    cases pkg.ctypes with
    | none => rfl
    | some ov => exact congrArg some ((List.filter_eq_self.mpr (fun a _ => rfl)).symm)
  · rw [if_neg hie, update_content_types_ctypes, hc3]

theorem remove_orphaned_slides_removes (pkg : Package) (n : String)
    (hrs : get_slides_in_sldidlst pkg = [])
    (hn : ["ppt", "slides", n] ∈ pkg.files) (hg : slideGlob n = true) :
    pathStr ["ppt", "slides", n] ∈ (remove_orphaned_slides pkg).1 ∧
    ["ppt", "slides", n] ∉ (remove_orphaned_slides pkg).2.files ∧
    (∀ e ∈ (remove_orphaned_slides pkg).2.relsFiles, e.1 ≠ slideRelsPathOf n) ∧
    ((∃ e ∈ pkg.relsFiles, e.1 = slideRelsPathOf n) →
      pathStr (slideRelsPathOf n) ∈ (remove_orphaned_slides pkg).1) := by
  have hdir : slidesDirExists pkg = true := by
    unfold slidesDirExists
    rw [Bool.or_eq_true]
    exact Or.inl (List.any_eq_true.mpr ⟨_, hn, rfl⟩)
  have horph : ["ppt", "slides", n] ∈ pkg.files.filter (fun p =>
      match p with
      | ["ppt", "slides", n] => slideGlob n && !((get_slides_in_sldidlst pkg).contains n)
      | _ => false) := by
    refine List.mem_filter.mpr ⟨hn, ?_⟩
    show (slideGlob n && !((get_slides_in_sldidlst pkg).contains n)) = true
    rw [hrs, hg]
    rfl
  unfold remove_orphaned_slides
  rw [if_neg (fun hneg => hneg hdir)]
  dsimp only
  refine ⟨?_, ?_, ?_, ?_⟩
  · exact List.mem_flatMap.mpr ⟨["ppt", "slides", n], horph, List.mem_cons_self _ _⟩
  · intro hmem
    have h2 := (List.mem_filter.mp hmem).2
    simp only [hrs] at h2
    simp [hg] at h2
  · intro e he heq
    have h2 := (List.mem_filter.mp he).2
    have hany : (pkg.files.filter (fun p =>
        match p with
        | ["ppt", "slides", n] => slideGlob n && !((get_slides_in_sldidlst pkg).contains n)
        | _ => false)).any (fun p => e.1 == slideRelsPathOf (p.getLastD "")) = true := by
      exact List.any_eq_true.mpr ⟨_, horph, by rw [heq]; exact beq_self_eq_true _⟩
    rw [hany] at h2
    simp at h2
  · intro ⟨e, he, heq⟩
    refine List.mem_flatMap.mpr ⟨["ppt", "slides", n], horph, ?_⟩
    have hany : pkg.relsFiles.any (fun e =>
        e.1 == slideRelsPathOf ((["ppt", "slides", n] : List String).getLastD "")) = true :=
      List.any_eq_true.mpr ⟨e, he, by rw [heq]; exact beq_self_eq_true _⟩
    rw [hany]
    exact List.mem_cons_of_mem _ (List.mem_cons_self _ _)

/-- C9: when `ppt/presentation.xml` or its relationships file is missing,
`_get_slides_in_sldidlst` returns the empty set, so `clean` deletes every
`ppt/slides/slide*.xml` (with its relationships file, when present) instead
of failing or keeping the slides. -/
theorem c9_missing_presentation_deletes_slides (pkg : Package)
    (h : pkg.pres = none ∨ pkg.presRels = none) (n : String)
    (hn : ["ppt", "slides", n] ∈ pkg.files) (hg : slideGlob n = true) :
    pathStr ["ppt", "slides", n] ∈ (clean pkg).1 ∧
    ["ppt", "slides", n] ∉ (clean pkg).2.files ∧
    (∀ e ∈ (clean pkg).2.relsFiles, e.1 ≠ slideRelsPathOf n) ∧
    ((∃ e ∈ pkg.relsFiles, e.1 = slideRelsPathOf n) →
      pathStr (slideRelsPathOf n) ∈ (clean pkg).1) := by
  have hrs : get_slides_in_sldidlst pkg = [] := by
    unfold get_slides_in_sldidlst
    rcases h with h | h
    · rw [h]
    · rw [h]
      cases pkg.pres <;> rfl
  obtain ⟨ha, hb, hc, hd⟩ := remove_orphaned_slides_removes pkg n hrs hn hg
  have hfiles : ∀ q, q ∈ (clean pkg).2.files → q ∈ (remove_orphaned_slides pkg).2.files := by
    intro q hq
    rw [clean_decomp] at hq
    have hq2 : q ∈ (cleanLoop (remove_trash_directory (remove_orphaned_slides pkg).2).2).2.files := by
      by_cases hie : ((remove_orphaned_slides pkg).1 ++
          (remove_trash_directory (remove_orphaned_slides pkg).2).1 ++
          (cleanLoop (remove_trash_directory (remove_orphaned_slides pkg).2).2).1).isEmpty
      · rw [if_pos hie] at hq; exact hq
      · rw [if_neg hie, update_content_types_files] at hq; exact hq
    exact remove_trash_directory_files_subset _ q (cleanLoopFuel_files_subset _ _ q hq2)
  have hrels : ∀ e, e ∈ (clean pkg).2.relsFiles →
      e ∈ (remove_orphaned_slides pkg).2.relsFiles := by
    intro e he
    rw [clean_decomp] at he
    have he2 : e ∈ (cleanLoop (remove_trash_directory (remove_orphaned_slides pkg).2).2).2.relsFiles := by
      by_cases hie : ((remove_orphaned_slides pkg).1 ++
          (remove_trash_directory (remove_orphaned_slides pkg).2).1 ++
          (cleanLoop (remove_trash_directory (remove_orphaned_slides pkg).2).2).1).isEmpty
      · rw [if_pos hie] at he; exact he
      · rw [if_neg hie, update_content_types_relsFiles] at he; exact he
    exact remove_trash_directory_relsFiles_subset _ e (cleanLoopFuel_relsFiles_subset _ _ e he2)
  refine ⟨?_, ?_, ?_, ?_⟩
  · rw [clean_decomp]
    exact List.mem_append_left _ (List.mem_append_left _ ha)
  · intro hmem
    exact hb (hfiles _ hmem)
  · intro e he
    exact hc e (hrels e he)
  · intro hex
    rw [clean_decomp]
    exact List.mem_append_left _ (List.mem_append_left _ (hd hex))

theorem c9_missing_presentation_witness :
    pathStr ["ppt", "slides", "slide1.xml"] ∈
      (clean (Package.mk none
        (some [⟨"rId2", "http://schemas.openxmlformats.org/officeDocument/2006/relationships/slide", "slides/slide1.xml"⟩])
        (some ["/ppt/slides/slide1.xml"])
        [(["ppt", "slides", "_rels", "slide1.xml.rels"],
          [⟨"rId1", "http://schemas.openxmlformats.org/officeDocument/2006/relationships/image", "../media/image1.png"⟩])]
        [["ppt", "slides", "slide1.xml"], ["ppt", "media", "image1.png"]])).1 ∧
    pathStr (slideRelsPathOf "slide1.xml") ∈
      (clean (Package.mk none
        (some [⟨"rId2", "http://schemas.openxmlformats.org/officeDocument/2006/relationships/slide", "slides/slide1.xml"⟩])
        (some ["/ppt/slides/slide1.xml"])
        [(["ppt", "slides", "_rels", "slide1.xml.rels"],
          [⟨"rId1", "http://schemas.openxmlformats.org/officeDocument/2006/relationships/image", "../media/image1.png"⟩])]
        [["ppt", "slides", "slide1.xml"], ["ppt", "media", "image1.png"]])).1 := by
  obtain ⟨ha, -, -, hd⟩ := c9_missing_presentation_deletes_slides
    (Package.mk none
      (some [⟨"rId2", "http://schemas.openxmlformats.org/officeDocument/2006/relationships/slide", "slides/slide1.xml"⟩])
      (some ["/ppt/slides/slide1.xml"])
      [(["ppt", "slides", "_rels", "slide1.xml.rels"],
        [⟨"rId1", "http://schemas.openxmlformats.org/officeDocument/2006/relationships/image", "../media/image1.png"⟩])]
      [["ppt", "slides", "slide1.xml"], ["ppt", "media", "image1.png"]])
    (Or.inl rfl) "slide1.xml" (by decide) (by decide)
  exact ⟨ha, hd ⟨_, List.mem_cons_self _ _, rfl⟩⟩


/-! ## Claim C3: `clean` reaches a fixpoint in one call.
Generic list lemmas about filters, then step-identity lemmas (a removal
step that reports nothing removed leaves the package unchanged), the
strict size decrease of a productive loop pass, and the stability of the
referenced-slide set under the slide sweep. -/

theorem filter_keep_of_filter_nil {α : Type} (q : α → Bool) (l : List α)
    (h : l.filter q = []) : l.filter (fun a => !(q a)) = l := by
  refine List.filter_eq_self.mpr (fun a ha => ?_)
  have hq := List.filter_eq_nil_iff.mp h a ha
  cases hqa : q a with
  | false => rfl
  | true => exact absurd hqa hq

theorem filter_nil_of_subset {α : Type} {q : α → Bool} {l l' : List α}
    (hs : ∀ a ∈ l', a ∈ l) (h : l.filter q = []) : l'.filter q = [] :=
  List.filter_eq_nil_iff.mpr (fun a ha => List.filter_eq_nil_iff.mp h a (hs a ha))

theorem filter_not_filter_nil {α : Type} (q : α → Bool) (l : List α) :
    (l.filter (fun a => !(q a))).filter q = [] := by
  refine List.filter_eq_nil_iff.mpr (fun a ha hq => ?_)
  have h2 := (List.mem_filter.mp ha).2
  rw [hq] at h2
  exact absurd h2 (by decide)

theorem flatMap_cons_nil {α β : Type} (f : α → β) (g : α → List β) (l : List α)
    (h : l.flatMap (fun a => f a :: g a) = []) : l = [] := by
  cases l with
  | nil => rfl
  | cons a t =>
    rw [List.flatMap_cons] at h
    exact absurd h (by simp)

theorem filter_not_length_lt {α : Type} (q : α → Bool) (l : List α)
    (h : l.filter q ≠ []) : (l.filter (fun a => !(q a))).length < l.length := by
  obtain ⟨x, hx⟩ := List.exists_mem_of_ne_nil _ h
  have hxl := (List.mem_filter.mp hx).1
  have hq := (List.mem_filter.mp hx).2
  refine filter_length_lt _ l x hxl ?_
  rw [hq]
  rfl

theorem length_filter2_le {α : Type} (a b : α → Bool) (l : List α) :
    ((l.filter a).filter b).length ≤ l.length :=
  le_trans (List.length_filter_le _ _) (List.length_filter_le _ _)

theorem length_filter3_le {α : Type} (a b c : α → Bool) (l : List α) :
    (((l.filter a).filter b).filter c).length ≤ l.length :=
  le_trans (List.length_filter_le _ _) (length_filter2_le _ _ _)

theorem head_filter_eq_find {α : Type} (q : α → Bool) :
    ∀ l : List α, (l.filter q).head? = l.find? q := by
  intro l
  induction l with
  | nil => rfl
  | cons a t ih =>
    cases hq : q a with
    | true =>
      rw [List.filter_cons_of_pos hq, List.find?_cons_of_pos _ hq]
      rfl
    | false =>
      rw [List.filter_cons_of_neg (by rw [hq]; decide),
        List.find?_cons_of_neg _ (by rw [hq]; decide)]
      exact ih

theorem find?_and_keep {α : Type} (q keep : α → Bool) :
    ∀ (l : List α) (r : α), l.find? q = some r → keep r = true →
      l.find? (fun a => q a && keep a) = some r := by
  intro l
  induction l with
  | nil => intro r h hk; exact absurd h (by simp)
  | cons a t ih =>
    intro r hf hk
    cases hq : q a with
    | true =>
      rw [List.find?_cons_of_pos _ hq] at hf
      injection hf with hf
      subst hf
      rw [List.find?_cons_of_pos]
      show (q a && keep a) = true
      rw [hq, hk]
      rfl
    | false =>
      rw [List.find?_cons_of_neg _ (by rw [hq]; decide)] at hf
      rw [List.find?_cons_of_neg _ (by show ¬ ((q a && keep a) = true); rw [hq]; simp)]
      exact ih r hf hk

theorem getLast?_filter_keep {α : Type} (mtch keep : α → Bool) (l : List α)
    (h : ∀ r, (l.filter mtch).getLast? = some r → keep r = true) :
    ((l.filter keep).filter mtch).getLast? = (l.filter mtch).getLast? := by
  rw [List.getLast?_eq_head?_reverse, List.getLast?_eq_head?_reverse,
    ← List.filter_reverse, ← List.filter_reverse, ← List.filter_reverse,
    List.filter_filter, head_filter_eq_find, head_filter_eq_find]
  cases hf : l.reverse.find? mtch with
  | none =>
    rw [List.find?_eq_none] at hf ⊢
    intro x hx hb
    have hm : mtch x = true := by
      revert hb
      cases mtch x <;> simp
    exact hf x hx hm
  | some r =>
    have hk : keep r = true := by
      apply h
      rw [List.getLast?_eq_head?_reverse, ← List.filter_reverse, head_filter_eq_find]
      exact hf
    exact find?_and_keep mtch keep l.reverse r hf hk

/-- The slide sweep never changes the set of slide names reachable from the
`<p:sldIdLst>`: the relationships it drops from `presentation.xml.rels` are
never the winning (last) match for a referenced rId. -/
theorem get_slides_stable (pkg : Package) :
    get_slides_in_sldidlst ((remove_orphaned_slides pkg).2) = get_slides_in_sldidlst pkg := by
  unfold remove_orphaned_slides
  by_cases hd : slidesDirExists pkg
  · rw [if_neg (fun hneg => hneg hd)]
    dsimp only
    by_cases hie : ((pkg.files.filter (fun p =>
        match p with
        | ["ppt", "slides", n] =>
          slideGlob n && !((get_slides_in_sldidlst pkg).contains n)
        | _ => false)).flatMap (fun p =>
          pathStr p ::
            (if pkg.relsFiles.any (fun e => e.1 == slideRelsPathOf (p.getLastD "")) then
              [pathStr (slideRelsPathOf (p.getLastD ""))]
            else []))).isEmpty
    · rw [if_pos hie]
      rfl
    · rw [if_neg hie]
      unfold get_slides_in_sldidlst
      cases hpres : pkg.pres with
      | none => rfl
      | some entries =>
        cases hrels : pkg.presRels with
        | none => dsimp only [Option.map]
        | some rels =>
          dsimp only [Option.map]
          refine List.filterMap_congr (fun rid hrid => ?_)
          unfold ridToSlide
          refine congrArg (Option.map _) ?_
          refine getLast?_filter_keep _ _ rels (fun r hlast => ?_)
          have hmem := List.mem_of_getLast?_eq_some hlast
          have hmtch := (List.mem_filter.mp hmem).2
          have hstrip : stripSlidesDir r.target ∈
              (entries.map SldEntry.rId).filterMap (ridToSlide rels) := by
            refine List.mem_filterMap.mpr ⟨rid, hrid, ?_⟩
            unfold ridToSlide
            rw [hlast]
            rfl
          have hc : ((entries.map SldEntry.rId).filterMap (ridToSlide rels)).contains
              (stripSlidesDir r.target) = true :=
            List.elem_iff.mpr hstrip
          show (!(strStartsWith r.target "slides/" &&
            !(((entries.map SldEntry.rId).filterMap (ridToSlide rels)).contains
              (stripSlidesDir r.target)))) = true
          rw [hc]
          cases strStartsWith r.target "slides/" <;> rfl
  · rw [if_pos hd]

/-- After the slide sweep no orphaned slide file remains (w.r.t. the swept
state's own referenced-slide set). -/
theorem slides_orphfree_after (pkg : Package) :
    ((remove_orphaned_slides pkg).2).files.filter (fun p =>
      match p with
      | ["ppt", "slides", n] =>
        slideGlob n && !((get_slides_in_sldidlst ((remove_orphaned_slides pkg).2)).contains n)
      | _ => false) = [] := by
  have hgs := get_slides_stable pkg
  rw [hgs]
  unfold remove_orphaned_slides
  by_cases hd : slidesDirExists pkg
  · rw [if_neg (fun hneg => hneg hd)]
    dsimp only
    exact filter_not_filter_nil _ _
  · rw [if_pos hd]
    dsimp only
    refine List.filter_eq_nil_iff.mpr (fun p hp hmatch => ?_)
    split at hmatch
    · next n =>
      apply hd
      unfold slidesDirExists
      rw [Bool.or_eq_true]
      refine Or.inl (List.any_eq_true.mpr ⟨_, hp, ?_⟩)
      rfl
    · exact absurd hmatch (by decide)

/-- Orphan-freeness of the slide filter transfers to any state with the same
presentation parts and fewer files. -/
theorem orphfilter_congr (q q' : Package)
    (hpres : q'.pres = q.pres) (hrels : q'.presRels = q.presRels)
    (hsub : ∀ a ∈ q'.files, a ∈ q.files)
    (h : q.files.filter (fun p =>
      match p with
      | ["ppt", "slides", n] =>
        slideGlob n && !((get_slides_in_sldidlst q).contains n)
      | _ => false) = []) :
    q'.files.filter (fun p =>
      match p with
      | ["ppt", "slides", n] =>
        slideGlob n && !((get_slides_in_sldidlst q').contains n)
      | _ => false) = [] := by
  have hgs : get_slides_in_sldidlst q' = get_slides_in_sldidlst q := by
    unfold get_slides_in_sldidlst
    rw [hpres, hrels]
  rw [hgs]
  exact filter_nil_of_subset hsub h

/-- When no slide file is orphaned, the slide sweep is the identity. -/
theorem remove_orphaned_slides_of_no_orphans (pkg : Package)
    (h : pkg.files.filter (fun p =>
      match p with
      | ["ppt", "slides", n] =>
        slideGlob n && !((get_slides_in_sldidlst pkg).contains n)
      | _ => false) = []) :
    remove_orphaned_slides pkg = ([], pkg) := by
  unfold remove_orphaned_slides
  by_cases hd : slidesDirExists pkg
  · rw [if_neg (fun hneg => hneg hd)]
    dsimp only
    rw [h, filter_keep_of_filter_nil _ _ h]
    have hr2 : pkg.relsFiles.filter (fun e =>
        !(List.any ([] : List (List String))
          (fun p => e.1 == slideRelsPathOf (p.getLastD "")))) = pkg.relsFiles :=
      List.filter_eq_self.mpr (fun a _ => rfl)
    rw [hr2]
    rfl
  · rw [if_pos hd]

/-- When no `[trash]` entries remain, the trash sweep is the identity. -/
theorem remove_trash_directory_of_clean (pkg : Package)
    (hf : pkg.files.filter (fun p => p.length == 2 && p.head? == some "[trash]") = [])
    (hr : pkg.relsFiles.filter (fun e =>
      e.1.length == 2 && e.1.head? == some "[trash]") = []) :
    remove_trash_directory pkg = ([], pkg) := by
  unfold remove_trash_directory
  dsimp only
  rw [hf, hr, filter_keep_of_filter_nil _ _ hf, filter_keep_of_filter_nil _ _ hr]
  rfl

/-- A `.rels` sweep that removed nothing left the package unchanged. -/
theorem remove_orphaned_rels_files_of_nil (p : Package)
    (h : (remove_orphaned_rels_files p).1 = []) :
    (remove_orphaned_rels_files p).2 = p := by
  unfold remove_orphaned_rels_files at h ⊢
  dsimp only at h ⊢
  rw [filter_keep_of_filter_nil _ _ (List.map_eq_nil_iff.mp h)]

/-- An orphan-file sweep that removed nothing left the package unchanged. -/
theorem remove_orphaned_files_of_nil (p : Package) (referenced : List (List String))
    (h : (remove_orphaned_files p referenced).1 = []) :
    (remove_orphaned_files p referenced).2 = p := by
  unfold remove_orphaned_files at h ⊢
  dsimp only at h ⊢
  simp only [List.append_eq_nil] at h
  obtain ⟨⟨⟨h1, h2⟩, h3⟩, h4⟩ := h
  have hf1 := filter_keep_of_filter_nil _ _ (List.map_eq_nil_iff.mp h1)
  rw [hf1] at h2 h3 h4 ⊢
  have hto := flatMap_cons_nil _ _ _ h2
  have hf2 := filter_keep_of_filter_nil _ _ hto
  rw [hto] at h4 ⊢
  have hr2 : p.relsFiles.filter (fun e =>
      !(List.any ([] : List (List String))
        (fun q => e.1 == themeRelsPathOf (q.getLastD "")))) = p.relsFiles :=
    List.filter_eq_self.mpr (fun a _ => rfl)
  rw [hr2] at h4 ⊢
  rw [hf2] at h3 h4 ⊢
  have hf3 := filter_keep_of_filter_nil _ _ (List.map_eq_nil_iff.mp h3)
  rw [hf3] at h4 ⊢
  rw [filter_keep_of_filter_nil _ _ (List.map_eq_nil_iff.mp h4)]

/-- A loop pass that removed nothing left the package unchanged. -/
theorem loopPass_of_nil (p : Package) (h : (loopPass p).1 = []) :
    (loopPass p).2 = p := by
  unfold loopPass at h ⊢
  dsimp only at h ⊢
  rw [List.append_eq_nil] at h
  obtain ⟨h1, h2⟩ := h
  have hrr : (remove_orphaned_rels_files p).2 = p := remove_orphaned_rels_files_of_nil p h1
  rw [hrr] at h2 ⊢
  exact remove_orphaned_files_of_nil p _ h2

theorem remove_orphaned_rels_files_size_le (p : Package) :
    pkgSize (remove_orphaned_rels_files p).2 ≤ pkgSize p := by
  unfold remove_orphaned_rels_files pkgSize
  dsimp only
  exact Nat.add_le_add_left (List.length_filter_le _ _) _

theorem remove_orphaned_rels_files_size_lt (p : Package)
    (h : (remove_orphaned_rels_files p).1 ≠ []) :
    pkgSize (remove_orphaned_rels_files p).2 < pkgSize p := by
  unfold remove_orphaned_rels_files at h ⊢
  dsimp only at h ⊢
  unfold pkgSize
  dsimp only
  obtain ⟨x, hx⟩ := List.exists_mem_of_ne_nil _ h
  obtain ⟨y, hy, -⟩ := List.mem_map.mp hx
  have ha := filter_not_length_lt _ _ (List.ne_nil_of_mem hy)
  omega

theorem remove_orphaned_files_size_le (p : Package) (referenced : List (List String)) :
    pkgSize (remove_orphaned_files p referenced).2 ≤ pkgSize p := by
  unfold remove_orphaned_files pkgSize
  dsimp only
  exact Nat.add_le_add (length_filter3_le _ _ _ _) (length_filter2_le _ _ _)

theorem remove_orphaned_files_size_lt (p : Package) (referenced : List (List String))
    (h : (remove_orphaned_files p referenced).1 ≠ []) :
    pkgSize (remove_orphaned_files p referenced).2 < pkgSize p := by
  unfold remove_orphaned_files at h ⊢
  dsimp only at h ⊢
  unfold pkgSize
  dsimp only
  obtain ⟨x, hx⟩ := List.exists_mem_of_ne_nil _ h
  simp only [List.mem_append] at hx
  rcases hx with ((hx | hx) | hx) | hx
  · obtain ⟨y, hy, -⟩ := List.mem_map.mp hx
    have ha := filter_not_length_lt _ _ (List.ne_nil_of_mem hy)
    refine add_lt_add_of_lt_of_le (lt_of_le_of_lt (length_filter2_le _ _ _) ha)
      (length_filter2_le _ _ _)
  · obtain ⟨y, hy, -⟩ := List.mem_flatMap.mp hx
    have ha := filter_not_length_lt _ _ (List.ne_nil_of_mem hy)
    refine add_lt_add_of_lt_of_le
      (lt_of_le_of_lt (List.length_filter_le _ _)
        (lt_of_lt_of_le ha (List.length_filter_le _ _)))
      (length_filter2_le _ _ _)
  · obtain ⟨y, hy, -⟩ := List.mem_map.mp hx
    have ha := filter_not_length_lt _ _ (List.ne_nil_of_mem hy)
    refine add_lt_add_of_lt_of_le
      (lt_of_lt_of_le ha (length_filter2_le _ _ _))
      (length_filter2_le _ _ _)
  · obtain ⟨y, hy, -⟩ := List.mem_map.mp hx
    have ha := filter_not_length_lt _ _ (List.ne_nil_of_mem hy)
    refine add_lt_add_of_le_of_lt (length_filter3_le _ _ _ _)
      (lt_of_lt_of_le ha (List.length_filter_le _ _))

theorem loopPass_size_lt (p : Package) (h : (loopPass p).1 ≠ []) :
    pkgSize (loopPass p).2 < pkgSize p := by
  unfold loopPass at h ⊢
  dsimp only at h ⊢
  by_cases h1 : (remove_orphaned_rels_files p).1 = []
  · have hne : (remove_orphaned_files (remove_orphaned_rels_files p).2
        (get_referenced_files (remove_orphaned_rels_files p).2)).1 ≠ [] := by
      intro hh
      apply h
      rw [h1, hh]
      rfl
    have hlt := remove_orphaned_files_size_lt _ _ hne
    have hle := remove_orphaned_rels_files_size_le p
    omega
  · have hlt := remove_orphaned_rels_files_size_lt p h1
    have hle := remove_orphaned_files_size_le (remove_orphaned_rels_files p).2
      (get_referenced_files (remove_orphaned_rels_files p).2)
    omega

/-- With more fuel than entries, the stabilization loop ends in a state on
which a further pass removes nothing. -/
theorem cleanLoopFuel_fix : ∀ (fuel : Nat) (p : Package), pkgSize p < fuel →
    loopPass (cleanLoopFuel fuel p).2 = ([], (cleanLoopFuel fuel p).2) := by
  intro fuel
  induction fuel with
  | zero => intro p h; exact absurd h (Nat.not_lt_zero _)
  | succ f ih =>
    intro p h
    rw [cleanLoopFuel_succ]
    by_cases hie : (loopPass p).1.isEmpty
    · rw [if_pos hie]
      dsimp only
      have he : (loopPass p).1 = [] := List.isEmpty_iff.mp hie
      have h2 : (loopPass p).2 = p := loopPass_of_nil p he
      rw [h2]
      exact Prod.ext he h2
    · rw [if_neg hie]
      dsimp only
      have hne : (loopPass p).1 ≠ [] := fun hh => hie (by rw [hh]; rfl)
      have hlt := loopPass_size_lt p hne
      exact ih (loopPass p).2 (by omega)

/-- A loop pass never reads or writes the parsed `[Content_Types].xml`. -/
theorem loopPass_setCtypes (q : Package) (c : Option (List String)) :
    loopPass (Package.mk q.pres q.presRels c q.relsFiles q.files) =
      ((loopPass q).1,
       Package.mk q.pres q.presRels c (loopPass q).2.relsFiles (loopPass q).2.files) := rfl

/-- A loop fixpoint is preserved by the manifest update. -/
theorem loopPass_fix_uct (q : Package) (r : List String)
    (hfix : loopPass q = ([], q)) :
    loopPass (update_content_types q r) = ([], update_content_types q r) := by
  unfold update_content_types
  cases hct : q.ctypes with
  | none => exact hfix
  | some ov =>
    rw [loopPass_setCtypes q
      (some (ov.filter (fun pn => !(r.contains (stripLeadSlashes pn))))), hfix]

/-- Starting the stabilization loop at a loop fixpoint removes nothing. -/
theorem cleanLoop_of_fix (p : Package) (hfix : loopPass p = ([], p)) :
    cleanLoop p = ([], p) := by
  unfold cleanLoop
  rw [cleanLoopFuel_succ, hfix]
  rfl

theorem cleanLoop_pres (p : Package) :
    (cleanLoop p).2.pres = p.pres ∧ (cleanLoop p).2.presRels = p.presRels ∧
      (cleanLoop p).2.ctypes = p.ctypes :=
  cleanLoopFuel_pres _ _

theorem cleanLoop_files_subset (p : Package) :
    ∀ q ∈ (cleanLoop p).2.files, q ∈ p.files :=
  cleanLoopFuel_files_subset _ _

theorem cleanLoop_relsFiles_subset (p : Package) :
    ∀ e ∈ (cleanLoop p).2.relsFiles, e ∈ p.relsFiles :=
  cleanLoopFuel_relsFiles_subset _ _

theorem clean_state_pres (pkg : Package) :
    (clean pkg).2.pres = (remove_orphaned_slides pkg).2.pres := by
  have hq := congrArg Prod.snd (clean_decomp pkg)
  dsimp only at hq
  rw [hq]
  split
  · rw [(cleanLoop_pres _).1, remove_trash_directory_pres]
  · rw [update_content_types_pres, (cleanLoop_pres _).1, remove_trash_directory_pres]

theorem clean_state_presRels (pkg : Package) :
    (clean pkg).2.presRels = (remove_orphaned_slides pkg).2.presRels := by
  have hq := congrArg Prod.snd (clean_decomp pkg)
  dsimp only at hq
  rw [hq]
  split
  · rw [(cleanLoop_pres _).2.1, remove_trash_directory_presRels]
  · rw [update_content_types_presRels, (cleanLoop_pres _).2.1,
      remove_trash_directory_presRels]

theorem clean_state_files_subset_trash (pkg : Package) :
    ∀ a ∈ (clean pkg).2.files,
      a ∈ (remove_trash_directory (remove_orphaned_slides pkg).2).2.files := by
  intro a ha
  have hq := congrArg Prod.snd (clean_decomp pkg)
  dsimp only at hq
  rw [hq] at ha
  split at ha
  · exact cleanLoop_files_subset _ a ha
  · rw [update_content_types_files] at ha
    exact cleanLoop_files_subset _ a ha

theorem clean_state_files_subset (pkg : Package) :
    ∀ a ∈ (clean pkg).2.files, a ∈ (remove_orphaned_slides pkg).2.files := by
  intro a ha
  exact remove_trash_directory_files_subset _ a (clean_state_files_subset_trash pkg a ha)

theorem clean_state_relsFiles_subset_trash (pkg : Package) :
    ∀ e ∈ (clean pkg).2.relsFiles,
      e ∈ (remove_trash_directory (remove_orphaned_slides pkg).2).2.relsFiles := by
  intro e he
  have hq := congrArg Prod.snd (clean_decomp pkg)
  dsimp only at hq
  rw [hq] at he
  split at he
  · exact cleanLoop_relsFiles_subset _ e he
  · rw [update_content_types_relsFiles] at he
    exact cleanLoop_relsFiles_subset _ e he

theorem clean_state_fix (pkg : Package) :
    loopPass (clean pkg).2 = ([], (clean pkg).2) := by
  have hq := congrArg Prod.snd (clean_decomp pkg)
  dsimp only at hq
  rw [hq]
  have hfix : loopPass (cleanLoop (remove_trash_directory
        (remove_orphaned_slides pkg).2).2).2 =
      ([], (cleanLoop (remove_trash_directory (remove_orphaned_slides pkg).2).2).2) :=
    cleanLoopFuel_fix _ _ (Nat.lt_succ_self _)
  split
  · exact hfix
  · exact loopPass_fix_uct _ _ hfix

theorem clean_state_no_orphans (pkg : Package) :
    (clean pkg).2.files.filter (fun p =>
      match p with
      | ["ppt", "slides", n] =>
        slideGlob n && !((get_slides_in_sldidlst (clean pkg).2).contains n)
      | _ => false) = [] :=
  orphfilter_congr _ _ (clean_state_pres pkg) (clean_state_presRels pkg)
    (clean_state_files_subset pkg) (slides_orphfree_after pkg)

theorem clean_state_no_trash_files (pkg : Package) :
    (clean pkg).2.files.filter (fun p =>
      p.length == 2 && p.head? == some "[trash]") = [] := by
  have h2 : (remove_trash_directory (remove_orphaned_slides pkg).2).2.files.filter
      (fun p => p.length == 2 && p.head? == some "[trash]") = [] := by
    unfold remove_trash_directory
    dsimp only
    exact filter_not_filter_nil _ _
  exact filter_nil_of_subset (clean_state_files_subset_trash pkg) h2

theorem clean_state_no_trash_rels (pkg : Package) :
    (clean pkg).2.relsFiles.filter (fun e =>
      e.1.length == 2 && e.1.head? == some "[trash]") = [] := by
  have h2 : (remove_trash_directory (remove_orphaned_slides pkg).2).2.relsFiles.filter
      (fun e => e.1.length == 2 && e.1.head? == some "[trash]") = [] := by
    unfold remove_trash_directory
    dsimp only
    exact filter_not_filter_nil _ _
  exact filter_nil_of_subset (clean_state_relsFiles_subset_trash pkg) h2

/-- C3: running `clean` twice in a row removes nothing the second time —
after one `clean` call no orphaned slide, `[trash]` entry, orphaned `.rels`
file or orphaned resource/theme/notes file remains, so every sweep of the
second call reports an empty removal list. -/
theorem c3_clean_idempotent (pkg : Package) : (clean (clean pkg).2).1 = [] := by
  have h1 : remove_orphaned_slides (clean pkg).2 = ([], (clean pkg).2) :=
    remove_orphaned_slides_of_no_orphans _ (clean_state_no_orphans pkg)
  have h2 : remove_trash_directory (clean pkg).2 = ([], (clean pkg).2) :=
    remove_trash_directory_of_clean _ (clean_state_no_trash_files pkg)
      (clean_state_no_trash_rels pkg)
  have h3 : cleanLoop (clean pkg).2 = ([], (clean pkg).2) :=
    cleanLoop_of_fix _ (clean_state_fix pkg)
  rw [clean_decomp ((clean pkg).2)]
  dsimp only
  rw [h1]
  dsimp only
  rw [h2]
  dsimp only
  rw [h3]
  rfl

/-! ## Claim C6: identifier allocation in `duplicate_slide`.
Decimal round trips (`int` of `str(n)` recovers `n`), the bound of
`foldr Nat.max`, and the freshness of the three allocated identifiers. -/

theorem decimalReprAux_succ (f n : Nat) :
    decimalReprAux (f + 1) n =
      if n < 10 then [Nat.digitChar n]
      else decimalReprAux f (n / 10) ++ [Nat.digitChar (n % 10)] := rfl

theorem digitVal_digitChar : ∀ n < 10, digitVal (Nat.digitChar n) = n := by decide

theorem isDigit_digitChar : ∀ n < 10, (Nat.digitChar n).isDigit = true := by decide

theorem decimalReprAux_spec : ∀ (fuel n : Nat), n < fuel →
    parseDigits (decimalReprAux fuel n) = n ∧
    decimalReprAux fuel n ≠ [] ∧
    ∀ c ∈ decimalReprAux fuel n, c.isDigit = true := by
  intro fuel
  induction fuel with
  | zero => intro n h; exact absurd h (Nat.not_lt_zero _)
  | succ f ih =>
    intro n h
    by_cases h10 : n < 10
    · rw [decimalReprAux_succ, if_pos h10]
      refine ⟨?_, by simp, ?_⟩
      · show 10 * 0 + digitVal (Nat.digitChar n) = n
        rw [digitVal_digitChar n h10]
        omega
      · intro c hc
        rw [List.mem_singleton] at hc
        subst hc
        exact isDigit_digitChar n h10
    · rw [decimalReprAux_succ, if_neg h10]
      have hdiv : n / 10 < f := by
        have h1 := Nat.div_lt_self (by omega : 0 < n) (by omega : 1 < 10)
        omega
      obtain ⟨ih1, ih2, ih3⟩ := ih (n / 10) hdiv
      refine ⟨?_, by simp, ?_⟩
      · show parseDigits (decimalReprAux f (n / 10) ++ [Nat.digitChar (n % 10)]) = n
        unfold parseDigits
        rw [List.foldl_append]
        show 10 * parseDigits (decimalReprAux f (n / 10)) +
          digitVal (Nat.digitChar (n % 10)) = n
        rw [ih1, digitVal_digitChar (n % 10) (Nat.mod_lt _ (by omega))]
        omega
      · intro c hc
        rw [List.mem_append] at hc
        rcases hc with hc | hc
        · exact ih3 c hc
        · rw [List.mem_singleton] at hc
          subst hc
          exact isDigit_digitChar _ (Nat.mod_lt _ (by omega))

theorem parseDigits_decimalRepr (n : Nat) : parseDigits (decimalRepr n) = n :=
  (decimalReprAux_spec _ _ (Nat.lt_succ_self n)).1

theorem decimalRepr_ne_nil (n : Nat) : decimalRepr n ≠ [] :=
  (decimalReprAux_spec _ _ (Nat.lt_succ_self n)).2.1

theorem decimalRepr_digits (n : Nat) : ∀ c ∈ decimalRepr n, c.isDigit = true :=
  (decimalReprAux_spec _ _ (Nat.lt_succ_self n)).2.2

theorem takeWhile_append_cons {α : Type} (p : α → Bool) (c : α) (l2 : List α) :
    ∀ l1 : List α, (∀ a ∈ l1, p a = true) → p c = false →
      (l1 ++ c :: l2).takeWhile p = l1 := by
  intro l1
  induction l1 with
  | nil =>
    intro _ hc
    exact List.takeWhile_cons_of_neg (by rw [hc]; decide)
  | cons a t ih =>
    intro h1 hc
    rw [List.cons_append,
      List.takeWhile_cons_of_pos (h1 a (List.mem_cons_self a t)),
      ih (fun b hb => h1 b (List.mem_cons_of_mem a hb)) hc]

theorem parseSlideNum_natStr (m : Nat) :
    parseSlideNum ("slide" ++ natStr m ++ ".xml") = some m := by
  unfold parseSlideNum
  dsimp only
  have htl : ("slide" ++ natStr m ++ ".xml").toList =
      "slide".toList ++ (decimalRepr m ++ ".xml".toList) := by
    show ("slide".toList ++ decimalRepr m) ++ ".xml".toList =
      "slide".toList ++ (decimalRepr m ++ ".xml".toList)
    rw [List.append_assoc]
  rw [htl, List.take_left' (by rfl), if_pos rfl, List.drop_left' (by rfl)]
  have hxml : ".xml".toList = '.' :: "xml".toList := rfl
  rw [hxml, takeWhile_append_cons _ _ _ _ (decimalRepr_digits m) (by decide), ← hxml,
    List.drop_left]
  rw [if_pos ⟨decimalRepr_ne_nil m, by decide⟩, parseDigits_decimalRepr]

theorem parseRId_natStr (m : Nat) : parseRId ("rId" ++ natStr m) = some m := by
  unfold parseRId
  dsimp only
  have htl : ("rId" ++ natStr m).toList = "rId".toList ++ decimalRepr m := rfl
  rw [htl, List.take_left' (by rfl), List.drop_left' (by rfl)]
  rw [if_pos ⟨rfl, decimalRepr_ne_nil m, List.all_eq_true.mpr (decimalRepr_digits m)⟩,
    parseDigits_decimalRepr]

theorem mem_le_foldr_max : ∀ (l : List Nat) (x : Nat), x ∈ l → x ≤ l.foldr Nat.max 0 := by
  intro l
  induction l with
  | nil => intro x hx; exact absurd hx (List.not_mem_nil x)
  | cons a t ih =>
    intro x hx
    rcases List.mem_cons.mp hx with rfl | hx'
    · exact Nat.le_max_left _ _
    · exact le_trans (ih x hx') (Nat.le_max_right _ _)

theorem slideGlob_slideName (s : String) : slideGlob ("slide" ++ s ++ ".xml") = true := by
  unfold slideGlob strStartsWith strEndsWith
  rw [Bool.and_eq_true]
  constructor
  · refine List.isPrefixOf_iff_prefix.mpr ?_
    show "slide".toList <+: ("slide".toList ++ s.toList) ++ ".xml".toList
    rw [List.append_assoc]
    exact List.prefix_append _ _
  · refine List.isSuffixOf_iff_suffix.mpr ?_
    exact List.suffix_append _ _

/-- C6: `duplicate_slide` allocates fresh identifiers — the new filename is
`slideN.xml` with `N` one past the maximum captured slide number (1 when
none exist), the new slide id is one past the maximum existing id (floor
256 when the list is empty), the new relationship id is `rId` with suffix
one past the maximum existing suffix; the filename names no existing file,
and the numeric id and relationship id differ from every pre-existing
entry. -/
theorem c6_duplicate_slide_fresh (pkg : Package) (src : String)
    (res : DupResult) (pkg2 : Package)
    (h : duplicate_slide pkg src = .ok (res, pkg2)) :
    ∃ entries prels,
      pkg.pres = some entries ∧ pkg.presRels = some prels ∧
      res.new_filename = "slide" ++ natStr ((pkg.files.filterMap (fun p =>
        match p with
        | ["ppt", "slides", n] => if slideGlob n then parseSlideNum n else none
        | _ => none)).foldr Nat.max 0 + 1) ++ ".xml" ∧
      res.new_sld_id = (if (entries.map SldEntry.sldId).isEmpty then 256
        else (entries.map SldEntry.sldId).foldr Nat.max 0 + 1) ∧
      res.new_r_id = "rId" ++
        natStr ((prels.filterMap (fun r => parseRId r.id)).foldr Nat.max 0 + 1) ∧
      pkg.files.contains ["ppt", "slides", res.new_filename] = false ∧
      (∀ e ∈ entries, e.sldId ≠ res.new_sld_id) ∧
      (∀ r ∈ prels, r.id ≠ res.new_r_id) := by
  unfold duplicate_slide at h
  by_cases hsrc : pkg.files.contains ["ppt", "slides", src] = true
  · rw [if_neg (fun hneg => hneg hsrc)] at h
    dsimp only at h
    cases hct : pkg.ctypes with
    | none => rw [hct] at h; exact Except.noConfusion h
    | some ov =>
      rw [hct] at h
      dsimp only at h
      cases hpr : pkg.presRels with
      | none => rw [hpr] at h; exact Except.noConfusion h
      | some prels =>
        rw [hpr] at h
        dsimp only at h
        cases hps : pkg.pres with
        | none => rw [hps] at h; exact Except.noConfusion h
        | some entries =>
          rw [hps] at h
          dsimp only at h
          injection h with h
          have hres : res = ⟨"slide" ++ natStr ((pkg.files.filterMap (fun p =>
              match p with
              | ["ppt", "slides", n] => if slideGlob n then parseSlideNum n else none
              | _ => none)).foldr Nat.max 0 + 1) ++ ".xml",
              (if (entries.map SldEntry.sldId).isEmpty then 256
                else (entries.map SldEntry.sldId).foldr Nat.max 0 + 1),
              "rId" ++ natStr ((prels.filterMap
                (fun r => parseRId r.id)).foldr Nat.max 0 + 1)⟩ :=
            (congrArg Prod.fst h).symm
          refine ⟨entries, prels, rfl, rfl, ?_, ?_, ?_, ?_, ?_, ?_⟩
          · rw [hres]
          · rw [hres]
          · rw [hres]
          · rw [hres]
            dsimp only
            by_contra hcontains
            rw [Bool.not_eq_false] at hcontains
            have hmem : ["ppt", "slides", "slide" ++ natStr ((pkg.files.filterMap (fun p =>
                match p with
                | ["ppt", "slides", n] => if slideGlob n then parseSlideNum n else none
                | _ => none)).foldr Nat.max 0 + 1) ++ ".xml"] ∈ pkg.files :=
              List.elem_iff.mp hcontains
            have hmemnum : ((pkg.files.filterMap (fun p =>
                match p with
                | ["ppt", "slides", n] => if slideGlob n then parseSlideNum n else none
                | _ => none)).foldr Nat.max 0 + 1) ∈ (pkg.files.filterMap (fun p =>
                match p with
                | ["ppt", "slides", n] => if slideGlob n then parseSlideNum n else none
                | _ => none)) := by
              refine List.mem_filterMap.mpr ⟨_, hmem, ?_⟩
              show (if slideGlob ("slide" ++ natStr _ ++ ".xml") then
                parseSlideNum ("slide" ++ natStr _ ++ ".xml") else none) = some _
              rw [if_pos (slideGlob_slideName _), parseSlideNum_natStr]
            have := mem_le_foldr_max _ _ hmemnum
            omega
          · rw [hres]
            dsimp only
            intro e he heq
            by_cases hie : (entries.map SldEntry.sldId).isEmpty = true
            · have hnil : entries = [] :=
                List.map_eq_nil_iff.mp (List.isEmpty_iff.mp hie)
              rw [hnil] at he
              exact absurd he (List.not_mem_nil e)
            · rw [if_neg hie] at heq
              have hle := mem_le_foldr_max _ _ (List.mem_map_of_mem SldEntry.sldId he)
              omega
          · rw [hres]
            dsimp only
            intro r hr heq
            have hparse : parseRId r.id = some ((prels.filterMap
                (fun r => parseRId r.id)).foldr Nat.max 0 + 1) := by
              rw [heq, parseRId_natStr]
            have hmemnum : ((prels.filterMap (fun r => parseRId r.id)).foldr Nat.max 0 + 1) ∈
                prels.filterMap (fun r => parseRId r.id) :=
              List.mem_filterMap.mpr ⟨r, hr, hparse⟩
            have := mem_le_foldr_max _ _ hmemnum
            omega
  · rw [if_pos hsrc] at h
    exact Except.noConfusion h

theorem c6_duplicate_slide_fresh_witness :
    duplicate_slide (Package.mk (some [⟨256, "rId1"⟩])
        (some [⟨"rId1", slideTypeURI, "slides/slide1.xml"⟩])
        (some ["/ppt/slides/slide1.xml"]) []
        [["ppt", "slides", "slide1.xml"]]) "slide1.xml" =
      .ok (⟨"slide2.xml", 257, "rId2"⟩, (Package.mk (some [⟨256, "rId1"⟩])
        (some [⟨"rId1", slideTypeURI, "slides/slide1.xml"⟩,
          ⟨"rId2", slideTypeURI, "slides/slide2.xml"⟩])
        (some ["/ppt/slides/slide1.xml", "/ppt/slides/slide2.xml"]) []
        [["ppt", "slides", "slide1.xml"], ["ppt", "slides", "slide2.xml"]])) ∧
    (∃ entries prels,
      (Package.mk (some [⟨256, "rId1"⟩])
        (some [⟨"rId1", slideTypeURI, "slides/slide1.xml"⟩])
        (some ["/ppt/slides/slide1.xml"]) []
        [["ppt", "slides", "slide1.xml"]]).pres = some entries ∧
      (Package.mk (some [⟨256, "rId1"⟩])
        (some [⟨"rId1", slideTypeURI, "slides/slide1.xml"⟩])
        (some ["/ppt/slides/slide1.xml"]) []
        [["ppt", "slides", "slide1.xml"]]).presRels = some prels ∧
      (⟨"slide2.xml", 257, "rId2"⟩ : DupResult).new_filename = "slide" ++ natStr ((((Package.mk (some [⟨256, "rId1"⟩])
        (some [⟨"rId1", slideTypeURI, "slides/slide1.xml"⟩])
        (some ["/ppt/slides/slide1.xml"]) []
        [["ppt", "slides", "slide1.xml"]]).files.filterMap (fun p =>
        match p with
        | ["ppt", "slides", n] => if slideGlob n then parseSlideNum n else none
        | _ => none)).foldr Nat.max 0 + 1)) ++ ".xml" ∧
      (⟨"slide2.xml", 257, "rId2"⟩ : DupResult).new_sld_id = (if (entries.map SldEntry.sldId).isEmpty then 256
        else (entries.map SldEntry.sldId).foldr Nat.max 0 + 1) ∧
      (⟨"slide2.xml", 257, "rId2"⟩ : DupResult).new_r_id = "rId" ++
        natStr ((prels.filterMap (fun r => parseRId r.id)).foldr Nat.max 0 + 1) ∧
      (Package.mk (some [⟨256, "rId1"⟩])
        (some [⟨"rId1", slideTypeURI, "slides/slide1.xml"⟩])
        (some ["/ppt/slides/slide1.xml"]) []
        [["ppt", "slides", "slide1.xml"]]).files.contains ["ppt", "slides", (⟨"slide2.xml", 257, "rId2"⟩ : DupResult).new_filename] = false ∧
      (∀ e ∈ entries, e.sldId ≠ (⟨"slide2.xml", 257, "rId2"⟩ : DupResult).new_sld_id) ∧
      (∀ r ∈ prels, r.id ≠ (⟨"slide2.xml", 257, "rId2"⟩ : DupResult).new_r_id)) :=
  ⟨rfl, c6_duplicate_slide_fresh _ "slide1.xml" _ _ rfl⟩

/-! ## Claim C5: differential XSD validation. -/

/-- C5 (counterexample): the reported set is NOT the raw difference
`candidate − baseline` — the benign-substring filter runs after the
subtraction, so a single newly introduced error that contains a benign
pattern (here `hyphenationZone`) is dropped: the difference has exactly one
element, yet `_check_xsd` reports nothing for the part. -/
theorem c5_differential_counterexample :
    check_xsd [["ppt", "slides", "slide1.xml"]]
      (fun p => if p == ["ppt", "slides", "slide1.xml"] then
        some ({"cvc-complex-type 3.2.2: attribute x not allowed",
               "warn hyphenationZone missing"} : Finset String) else none)
      (fun p => if p == ["ppt", "slides", "slide1.xml"] then
        some ({"cvc-complex-type 3.2.2: attribute x not allowed"} : Finset String) else none)
      (fun _ => true) true = [] ∧
    ((({"cvc-complex-type 3.2.2: attribute x not allowed",
        "warn hyphenationZone missing"} : Finset String) \
      ({"cvc-complex-type 3.2.2: attribute x not allowed"} : Finset String)).card = 1) := by
  constructor
  · decide
  · decide

/-- C5 (amended): with a baseline, for a part that has a schema, a
non-empty candidate error set and an existing baseline part, the report is
the benign-filtered difference (part skipped when that is empty, else its
cardinality); in particular one newly introduced error whose message
contains no benign substring is reported as exactly one error. -/
theorem c5_differential_amended (valC valB : List String → Option (Finset String))
    (baseExists : List String → Bool) (f : List String)
    (cur base : Finset String)
    (hs : get_schema_path f ≠ none)
    (hc : valC f = some cur)
    (hb : valB f = some base)
    (hbe : baseExists f = true)
    (hne : cur ≠ ∅) :
    check_xsd_one valC valB baseExists true f =
      (if filterIgnored (cur \ base) = ∅ then none
       else some (f, (filterIgnored (cur \ base)).card)) ∧
    (∀ e, cur = insert e base → e ∉ base →
      (IGNORED_XSD_ERRORS.all (fun pat => !(strContains e pat))) = true →
      check_xsd_one valC valB baseExists true f = some (f, 1)) := by
  have hchar : check_xsd_one valC valB baseExists true f =
      (if filterIgnored (cur \ base) = ∅ then none
       else some (f, (filterIgnored (cur \ base)).card)) := by
    unfold check_xsd_one
    cases hgs : get_schema_path f with
    | none => exact absurd hgs hs
    | some sp =>
      rw [hc]
      dsimp only
      rw [if_neg hne, hbe, hb]
      rfl
  refine ⟨hchar, fun e hcur hnotmem hbenign => ?_⟩
  have hdiff : cur \ base = {e} := by
    rw [hcur]
    ext x
    simp only [Finset.mem_sdiff, Finset.mem_insert, Finset.mem_singleton]
    constructor
    · rintro ⟨hx | hx, hnx⟩
      · exact hx
      · exact absurd hx hnx
    · rintro rfl
      exact ⟨Or.inl rfl, hnotmem⟩
  have hfi : filterIgnored (cur \ base) = {e} := by
    rw [hdiff]
    unfold filterIgnored
    rw [Finset.filter_singleton, if_pos hbenign]
  rw [hchar, hfi, if_neg (Finset.singleton_ne_empty e), Finset.card_singleton]

/-- C5 (witness for the amended theorem): one genuinely new, non-benign
error over a one-error baseline is reported as exactly one error. -/
theorem c5_differential_amended_witness :
    get_schema_path ["ppt", "slides", "slide1.xml"] ≠ none ∧
    check_xsd_one
      (fun p => if p == ["ppt", "slides", "slide1.xml"] then
        some (insert "cvc-elt 1.3.1: element y unexpected"
          ({"cvc-complex-type 3.2.2: attribute x not allowed"} : Finset String)) else none)
      (fun p => if p == ["ppt", "slides", "slide1.xml"] then
        some ({"cvc-complex-type 3.2.2: attribute x not allowed"} : Finset String) else none)
      (fun _ => true) true ["ppt", "slides", "slide1.xml"] =
      some (["ppt", "slides", "slide1.xml"], 1) := by
  refine ⟨by decide, ?_⟩
  refine (c5_differential_amended
    (fun p => if p == ["ppt", "slides", "slide1.xml"] then
      some (insert "cvc-elt 1.3.1: element y unexpected"
        ({"cvc-complex-type 3.2.2: attribute x not allowed"} : Finset String)) else none)
    (fun p => if p == ["ppt", "slides", "slide1.xml"] then
      some ({"cvc-complex-type 3.2.2: attribute x not allowed"} : Finset String) else none)
    (fun _ => true) ["ppt", "slides", "slide1.xml"]
    (insert "cvc-elt 1.3.1: element y unexpected"
      ({"cvc-complex-type 3.2.2: attribute x not allowed"} : Finset String))
    ({"cvc-complex-type 3.2.2: attribute x not allowed"} : Finset String)
    (by decide) rfl rfl rfl (by decide)).2
    "cvc-elt 1.3.1: element y unexpected" rfl (by decide) (by decide)

end Pptx
